import Mathlib

/-!
Verification of the Arkham versus-draft compiler (`src/app.py`).

The Python source is shallowly embedded below.  Python dictionaries are
modelled as insertion-ordered association lists (matching CPython's
insertion-ordered dicts), optional / absent fields as `Option` or the
empty string (Python truthiness on strings treats `None` and `""` alike,
and the code only tests these fields for truthiness or compares them to
non-empty literals), and machine integers as `Int` (Python integers are
unbounded).  String operations from the source (`lower`, `upper`,
`strip`, `split`, `endswith`, substring membership) are implemented by
structural recursion over the character list so that every definition
evaluates inside the kernel.
-/

namespace ArkhamVD

/-! ### String utilities (structural, kernel-computable) -/

/-- Python `str.lower()` (ASCII case fold, which is all the code relies on). -/
def strLower (s : String) : String := ⟨s.data.map Char.toLower⟩

/-- Python `str.upper()`. -/
def strUpper (s : String) : String := ⟨s.data.map Char.toUpper⟩

/-- Python `str.strip()` on the character list. -/
def trimChars (l : List Char) : List Char :=
  ((l.dropWhile Char.isWhitespace).reverse.dropWhile Char.isWhitespace).reverse

/-- Python `str.strip()`. -/
def strStrip (s : String) : String := ⟨trimChars s.data⟩

/-- `needle` occurs as a contiguous run at the front of `hay`. -/
def beginsWithChars : List Char → List Char → Bool
  | [], _ => true
  | _ :: _, [] => false
  | a :: as, b :: bs => a = b && beginsWithChars as bs

/-- Python `needle in hay` for strings: contiguous substring occurrence. -/
def containsSubChars (needle : List Char) : List Char → Bool
  | [] => needle.isEmpty
  | c :: t => beginsWithChars needle (c :: t) || containsSubChars needle t

/-- Python `needle in hay` on `String`. -/
def strContainsSub (hay needle : String) : Bool :=
  containsSubChars needle.data hay.data

/-- Python `s.startswith(p)`. -/
def strBeginsWith (s p : String) : Bool := beginsWithChars p.data s.data

/-- Python `s.endswith(p)`. -/
def strEndsWith (s p : String) : Bool :=
  beginsWithChars p.data.reverse s.data.reverse

/-- Split a character list at every occurrence of `sep` (Python `str.split(sep)`
with a single-character separator and no maxsplit). -/
def splitCharAux (sep : Char) : List Char → List Char → List (List Char)
  | [], acc => [acc.reverse]
  | c :: cs, acc =>
    if c = sep then acc.reverse :: splitCharAux sep cs [] else splitCharAux sep cs (c :: acc)

/-- Python `s.split(sep)` for a one-character separator. -/
def strSplitChar (s : String) (sep : Char) : List String :=
  (splitCharAux sep s.data []).map (fun l => ⟨l⟩)

/-- Python `line.split(' ', 1)`: at most one split, on the first space. -/
def splitFirstSpace (s : String) : List String :=
  match strSplitChar s ' ' with
  | [] => [s]
  | [x] => [x]
  | x :: rest => [x, ⟨List.intercalate [' '] (rest.map String.data)⟩]

/-- Digits of a character list read as a natural number. -/
def digitsToNat : List Char → Nat → Nat
  | [], acc => acc
  | c :: cs, acc => digitsToNat cs (acc * 10 + (c.toNat - '0'.toNat))

/-- Python `int(s)`: optional surrounding whitespace, optional sign, a
non-empty run of decimal digits; `none` models `ValueError`. -/
def parseInt (s : String) : Option Int :=
  let t := trimChars s.data
  let core : Bool × List Char :=
    match t with
    | '-' :: rest => (true, rest)
    | '+' :: rest => (false, rest)
    | _ => (false, t)
  if core.2 ≠ [] ∧ core.2.all Char.isDigit then
    let n : Nat := digitsToNat core.2 0
    some (if core.1 then -(n : Int) else (n : Int))
  else none

/-- The first whitespace-separated token of a (stripped) line, the piece
`line.split(' ', 1)[0]` that the parsers feed to `int(...)`. -/
def firstToken (line : String) : String :=
  (splitFirstSpace (strStrip line)).headD ""

/-- Decimal rendering of an integer, Python `str(q)` / f-string interpolation. -/
def intToStr (q : Int) : String := toString q

/-! ### Association lists standing in for Python dicts -/

/-- Lookup in an insertion-ordered association list (Python `d.get(k)` /
`d[k]`). -/
def alookup {κ α : Type} [BEq κ] (l : List (κ × α)) (k : κ) : Option α :=
  (l.find? (fun p => p.1 == k)).map (·.2)

/-- Replace the value stored at `k` in place (Python `d[k] = v` when `k`
is already present: the key keeps its original position). -/
def aupdate {κ α : Type} [BEq κ] (l : List (κ × α)) (k : κ) (v : α) : List (κ × α) :=
  l.map (fun p => if p.1 == k then (p.1, v) else p)

/-- Python `d[k] = v`: overwrite in place if present, append otherwise. -/
def ainsert {κ α : Type} [BEq κ] (l : List (κ × α)) (k : κ) (v : α) : List (κ × α) :=
  if (l.any (fun p => p.1 == k)) then aupdate l k v else l ++ [(k, v)]

/-- Python `s.add(x)` on a set modelled as a duplicate-free list. -/
def sinsert {α : Type} [BEq α] (l : List α) (x : α) : List α :=
  if l.contains x then l else l ++ [x]

/-- Python `s.update(xs)`. -/
def sinsertAll {α : Type} [BEq α] (l : List α) (xs : List α) : List α :=
  xs.foldl sinsert l

/-! ### Data model (§3 of the source's catalog records) -/

/-- One record of the `packs` API payload. -/
structure Pack where
  code : String
  name : String
  cycle_position : Int
  position : Int
deriving DecidableEq

/-- One record of the `cards` API payload, restricted to the fields the
compiler reads.  Fields the code only tests for truthiness or compares
with non-empty literals (`bonded_to`, `linked_to_code`, `subtype_code`,
`faction_code`, image sources) are kept as `String` with `""` standing
for both an absent key and `None`, which Python treats identically in
those positions.  `deck_requirements` is the key list of
`deck_requirements['card']` (empty when the field is missing), and
`bonded_cards` the list of `code` values of its entries. -/
structure Card where
  code : String
  name : String
  pack_code : String
  type_code : String
  subtype_code : String
  faction_code : String
  cost : Option Int
  xp : Option Int
  quantity : Int
  restrictions : Bool
  bonded_to : String
  bonded_cards : List String
  deck_requirements : List String
  linked_to_code : String
  imagesrc : String
  backimagesrc : String
deriving DecidableEq

/-- The in-memory catalog the core consumes: the `packs` payload, the
global `cards` payload (`get_arkham_cards`), and the per-pack payloads
(`get_pack_cards`), an association from pack code to card list. -/
structure Catalog where
  packs : List Pack
  cards : List Card
  pack_cards : List (String × List Card)
deriving DecidableEq

/-- `get_pack_cards(pack_code)`: the cached per-pack payload, `[]` when
the pack cannot be loaded. -/
def get_pack_cards (cat : Catalog) (pc : String) : List Card :=
  (alookup cat.pack_cards pc).getD []

/-- `player_card_codes`: the set of non-empty codes of the main cards
cache, used by all three bucket generators as a sanity filter. -/
def player_card_codes (cat : Catalog) : List String :=
  cat.cards.filterMap (fun c => if c.code = "" then none else some c.code)

/-- `pack_name_to_code`: dict comprehension over the packs payload
(later packs overwrite earlier ones with the same name). -/
def pack_name_to_code (packs : List Pack) : List (String × String) :=
  packs.foldl (fun acc p => ainsert acc p.name p.code) []

/-- `pack_code_to_name`. -/
def pack_code_to_name (packs : List Pack) : List (String × String) :=
  packs.foldl (fun acc p => ainsert acc p.code p.name) []

/-- `pack_code_to_pack`. -/
def pack_code_to_pack (packs : List Pack) : List (String × Pack) :=
  packs.foldl (fun acc p => ainsert acc p.code p) []

/-- The `{}` default of `pack_code_to_pack.get(pack_code, {})`: every
`.get` on it yields its default (`cycle_position`/`position` read as 0,
`code` compares unequal to every non-empty literal). -/
def emptyPack : Pack := ⟨"", "", 0, 0⟩

/-- `pack_code_to_pack.get(pack_code, {})`. -/
def packDataFor (packs : List Pack) (pc : String) : Pack :=
  (alookup (pack_code_to_pack packs) pc).getD emptyPack

/-- The selected pack-code set built at the top of
`convert_to_draftmancer_format`: unknown pack names are silently
dropped.  (The Python set is iterated by the generators; the list keeps
one code per first occurrence and stands for that iteration order.) -/
def selected_pack_codes_of (packs : List Pack) (selected_pack_names : List String) : List String :=
  selected_pack_names.foldl
    (fun acc n =>
      match alookup (pack_name_to_code packs) n with
      | some c => sinsert acc c
      | none => acc) []

/-! ### `parse_excluded_cards` (src/app.py lines 47-78) -/

/-- One loop iteration of `parse_excluded_cards`.  Empty lines are
skipped; a `"<int> <name>"` line contributes the lower-cased name; any
other line contributes the whole (stripped) line lower-cased. -/
def process_exclude_line (acc : List String) (rawLine : String) : List String :=
  let line := strStrip rawLine
  if line = "" then acc
  else
    match splitFirstSpace line with
    | p0 :: p1 :: _ =>
      match parseInt p0 with
      | some _ =>
        let card_name := strStrip p1
        if card_name ≠ "" then sinsert acc (strLower card_name) else acc
      | none => sinsert acc (strLower line)
    | _ => sinsert acc (strLower line)

/-- `parse_excluded_cards(excluded_text)`: the set of normalized
excluded names, modelled as a duplicate-free list. -/
def parse_excluded_cards (excluded_text : String) : List String :=
  if excluded_text = "" then []
  else (strSplitChar (strStrip excluded_text) '\n').foldl process_exclude_line []

/-! ### `parse_cards_to_include` (src/app.py lines 80-148) -/

/-- The record stored per include line. -/
structure IncludeInfo where
  name : String
  quantity : Int
  card_type : String
  data : Option Card
deriving DecidableEq

/-- `card_name_to_data`: name (lower-cased) to card record, preferring
main cards over bonded ones, and among main cards an investigator with
deck requirements (src/app.py lines 91-109). -/
def card_name_to_data (cards : List Card) : List (String × Card) :=
  cards.foldl
    (fun acc c =>
      let n := strLower c.name
      if n = "" then acc
      else
        match alookup acc n with
        | none => acc ++ [(n, c)]
        | some existing =>
          if existing.bonded_to ≠ "" ∧ c.bonded_to = "" then aupdate acc n c
          else if existing.bonded_to = "" ∧ c.bonded_to = "" then
            if c.type_code = "investigator" ∧ c.deck_requirements ≠ [] then aupdate acc n c
            else acc
          else acc) []

/-- One loop iteration of `parse_cards_to_include`: a malformed first
token (`ValueError` from `int(...)`) or a line without a space skips the
line; otherwise the line upserts an entry keyed by the lower-cased name. -/
def process_include_line (lookupTable : List (String × Card))
    (acc : List (String × IncludeInfo)) (rawLine : String) : List (String × IncludeInfo) :=
  let line := strStrip rawLine
  if line = "" then acc
  else
    match splitFirstSpace line with
    | p0 :: p1 :: _ =>
      match parseInt p0 with
      | some quantity =>
        let card_name := strStrip p1
        if card_name = "" then acc
        else
          let card_data := alookup lookupTable (strLower card_name)
          let card_type :=
            match card_data with
            | some d =>
              if d.type_code = "investigator" then "investigator"
              else if d.subtype_code = "basicweakness" then "basicweakness"
              else "player"
            | none => "player"
          ainsert acc (strLower card_name) ⟨card_name, quantity, card_type, card_data⟩
      | none => acc
    | _ => acc

/-- `parse_cards_to_include(include_text)` over the main cards cache. -/
def parse_cards_to_include (cards : List Card) (include_text : String) :
    List (String × IncludeInfo) :=
  if include_text = "" then []
  else
    (strSplitChar (strStrip include_text) '\n').foldl
      (process_include_line (card_name_to_data cards)) []

/-! ### Shared card-to-output helpers (src/app.py lines 20-45, 182-200, 701-726) -/

/-- `format_image_url`. -/
def format_image_url (image_src : String) : String :=
  if image_src = "" then ""
  else if strBeginsWith image_src "http" then image_src
  else "https://arkhamdb.com" ++ image_src

/-- `FACTION_COLOR_MAP.get(faction, [])`; an absent faction key defaults
to `'neutral'`, which also maps to `[]`. -/
def faction_colors (faction_code : String) : List String :=
  if faction_code = "guardian" then ["U"]
  else if faction_code = "seeker" then ["W"]
  else if faction_code = "rogue" then ["G"]
  else if faction_code = "mystic" then ["B"]
  else if faction_code = "survivor" then ["R"]
  else []

/-- `TYPE_CODE_MAP.get(type_code, 'Instant')`. -/
def type_code_map (type_code : String) : String :=
  if type_code = "investigator" then "Creature"
  else if type_code = "asset" then "Artifact"
  else if type_code = "event" then "Instant"
  else if type_code = "skill" then "Sorcery"
  else if type_code = "treachery" then "Enchantment"
  else "Instant"

/-- The cost-to-string conversion: `-2` is the variable-cost sentinel
`"X"`, `None` becomes `"0"`. -/
def mana_cost_str (cost : Option Int) : String :=
  match cost with
  | some v => if v = -2 then "X" else intToStr v
  | none => "0"

/-- `card.get('xp', 0)` is positive: the rejection test of the pool and
PlayerCard filters (both treat a missing and a `null` xp as not
positive). -/
def xpPositive (c : Card) : Bool :=
  match c.xp with
  | some v => v > 0
  | none => false

/-! ### `convert_to_draftmancer_format` (src/app.py lines 602-825) -/

/-- The back sub-record emitted under `"back"`. -/
structure BackCard where
  name : String
  image : String
  type : String
  layout : Option String
deriving DecidableEq

/-- One object of the `[CustomCards]` block.  `related_cards = []`,
`add_cards = []`, `layout = none`, `back = none` stand for the
corresponding keys being absent; `face_up` records whether the
`"FaceUp"` draft effect is present. -/
structure DraftmancerCard where
  name : String
  image : String
  colors : List String
  mana_cost : String
  type : String
  set : String
  collector_number : String
  rating : Int
  layout : Option String
  related_cards : List String
  face_up : Bool
  add_cards : List String
  back : Option BackCard
deriving DecidableEq

/-- One card's additions to the required-code set (lines 626-642): deck
requirements of a selected investigator plus non-empty bonded codes of
any selected card. -/
def required_step (selCodes : List String) (acc : List String) (c : Card) : List String :=
  if c.pack_code ∈ selCodes then
    let acc := if c.type_code = "investigator" then sinsertAll acc c.deck_requirements else acc
    sinsertAll acc (c.bonded_cards.filter (fun b => b ≠ ""))
  else acc

/-- `required_card_codes` (lines 622-642). -/
def required_card_codes (cat : Catalog) (selCodes : List String) : List String :=
  cat.cards.foldl (required_step selCodes) []

/-- A card is in compilation scope: from a selected pack or required. -/
def card_in_scope (cat : Catalog) (selCodes : List String) (c : Card) : Bool :=
  c.pack_code ∈ selCodes ∨ c.code ∈ required_card_codes cat selCodes

/-- Lines 660-663: some card of a selected pack links to `code` as its
back face. -/
def front_card_exists (cat : Catalog) (selCodes : List String) (code : String) : Bool :=
  cat.cards.any (fun c => c.pack_code ∈ selCodes ∧ c.linked_to_code = code)

/-- The per-card test of the `filtered_cards` loop (lines 646-669). -/
def filtered_card_test (cat : Catalog) (selCodes : List String) (c : Card) : Bool :=
  card_in_scope cat selCodes c ∧ ¬xpPositive c ∧
    (if strEndsWith c.code "b" then ¬front_card_exists cat selCodes c.code else true)

/-- `filtered_cards`: the compiled custom-card pool before conversion. -/
def filtered_cards (cat : Catalog) (selCodes : List String) : List Card :=
  cat.cards.filter (filtered_card_test cat selCodes)

/-- `linked_back_lookup` (lines 671-684): front-card code to its
explicit back-face card. -/
def linked_back_lookup (cat : Catalog) (selCodes : List String) : List (String × Card) :=
  cat.cards.foldl
    (fun acc c =>
      if card_in_scope cat selCodes c ∧ c.linked_to_code ≠ "" ∧ strEndsWith c.linked_to_code "b" then
        match cat.cards.find? (fun b => b.code == c.linked_to_code) with
        | some back => ainsert acc c.code back
        | none => acc
      else acc) []

/-- Lines 686-697: a bonded-card display name clashes when two or more
bonded cards of the pool share it. -/
def bonded_name_conflict (fcs : List Card) (n : String) : Bool :=
  ((fcs.filter (fun c => c.bonded_to ≠ "")).map (fun c => c.name)).count n ≥ 2

/-- Lines 711-715: the emitted display name, disambiguated with the code
for name-clashing bonded cards. -/
def display_name (fcs : List Card) (c : Card) : String :=
  if c.bonded_to ≠ "" ∧ bonded_name_conflict fcs c.name then
    c.name ++ " (" ++ c.code ++ ")"
  else c.name

/-- Lines 737-751: names of the deck-requirement cards of an
investigator (unresolved codes are skipped). -/
def deck_req_related (cat : Catalog) (c : Card) : List String :=
  if c.type_code = "investigator" then
    c.deck_requirements.filterMap
      (fun code => (cat.cards.find? (fun r => r.code == code)).map (fun r => r.name))
  else []

/-- Lines 753-767: names of the bonded companions of a card, with the
same clash disambiguation as the pool entries. -/
def bonded_related (cat : Catalog) (fcs : List Card) (c : Card) : List String :=
  (c.bonded_cards.filter (fun b => b ≠ "")).filterMap
    (fun bc =>
      (cat.cards.find? (fun b => b.code == bc)).map
        (fun b =>
          if b.bonded_to ≠ "" ∧ bonded_name_conflict fcs b.name then
            b.name ++ " (" ++ bc ++ ")"
          else b.name))

/-- Lines 791-815: the back sub-record, preferring an explicit linked
back card over the record's own `backimagesrc`. -/
def back_of (cat : Catalog) (selCodes : List String) (c : Card) : Option BackCard :=
  let lay : Option String := if c.type_code = "investigator" then some "split_left" else none
  match alookup (linked_back_lookup cat selCodes) c.code with
  | some back =>
    some ⟨c.name ++ " - back", format_image_url back.imagesrc, type_code_map c.type_code, lay⟩
  | none =>
    if c.backimagesrc ≠ "" then
      some ⟨c.name ++ " - back", format_image_url c.backimagesrc, type_code_map c.type_code, lay⟩
    else none

/-- Lines 701-817: one pool card converted to Draftmancer form. -/
def to_draftmancer_card (cat : Catalog) (selCodes : List String) (fcs : List Card)
    (c : Card) : DraftmancerCard :=
  let rel := deck_req_related cat c ++ bonded_related cat fcs c
  { name := display_name fcs c
    image := format_image_url c.imagesrc
    colors := faction_colors c.faction_code
    mana_cost := mana_cost_str c.cost
    type := type_code_map c.type_code
    set := "AH" ++ strUpper c.pack_code
    collector_number := c.code
    rating := 0
    layout := if c.type_code = "investigator" then some "split_left" else none
    related_cards := rel
    face_up := c.type_code = "investigator"
    add_cards := rel
    back := back_of cat selCodes c }

/-- The `"cards"` list of `convert_to_draftmancer_format`: the emitted
`[CustomCards]` block before explicit includes are appended. -/
def convert_to_draftmancer_cards (cat : Catalog) (selected_pack_names : List String) :
    List DraftmancerCard :=
  let selCodes := selected_pack_codes_of cat.packs selected_pack_names
  let fcs := filtered_cards cat selCodes
  fcs.map (to_draftmancer_card cat selCodes fcs)

/-! ### Bucket entries and the stable sort

Python's `list.sort` is stable; a stable insertion sort (each element is
placed after all elements the order considers no greater) models it and
evaluates in the kernel. -/

/-- One bucket line `"<quantity> <name> (<set-label>) <collector-number>"`,
kept structured; `render_entry` produces the literal line. -/
structure Entry where
  quantity : Int
  name : String
  set_label : String
  collector_number : String
deriving DecidableEq

/-- The literal text of a bucket line, as the f-strings of the source
produce it (`set_label` already carries the `AH` prefix). -/
def render_entry (e : Entry) : String :=
  intToStr e.quantity ++ " " ++ e.name ++ " (" ++ e.set_label ++ ") " ++ e.collector_number

/-- Insert `x` after every element `le`-no-greater than it (stable). -/
def insertOrdered {α : Type} (le : α → α → Bool) (x : α) : List α → List α
  | [] => [x]
  | y :: ys => if le y x then y :: insertOrdered le x ys else x :: y :: ys

/-- Stable sort by `le` (models Python's stable `list.sort`). -/
def sortOrdered {α : Type} (le : α → α → Bool) (l : List α) : List α :=
  l.foldl (fun acc x => insertOrdered le x acc) []

/-- Lexicographic `≤` on character lists by code point. -/
def charListLe : List Char → List Char → Bool
  | [], _ => true
  | _ :: _, [] => false
  | a :: as, b :: bs => if a = b then charListLe as bs else decide (a < b)

/-- `str` comparison key used by the sorts: lexicographic `≤` by code
point, matching Python's string order. -/
def strLe (a b : String) : Bool := charListLe a.data b.data

/-! ### `generate_player_cards` (src/app.py lines 827-897) -/

/-- The `(card_name, pack_code, collector_number)` key of the PlayerCard
accumulation dict. -/
structure PCKey where
  name : String
  pack_code : String
  collector_number : String
deriving DecidableEq

/-- The guard chain of the PlayerCard loop (lines 848-874): main-cache
membership, not bonded, not an investigator, no restrictions, not a
basic weakness, xp not positive, not excluded. -/
def player_card_keep (cat : Catalog) (excluded_cards : List String) (c : Card) : Bool :=
  c.code ∈ player_card_codes cat ∧
  c.bonded_to = "" ∧
  c.type_code ≠ "investigator" ∧
  ¬c.restrictions ∧
  c.subtype_code ≠ "basicweakness" ∧
  ¬xpPositive c ∧
  strLower c.name ∉ excluded_cards

/-- Lines 844-846: the pack's selection multiplier, looked up by pack
name with default 1 (an empty/missing quantities dict also gives 1). -/
def pack_multiplier (cat : Catalog) (pack_quantities : List (String × Int)) (pc : String) : Int :=
  let pack_name := (alookup (pack_code_to_name cat.packs) pc).getD pc
  (alookup pack_quantities pack_name).getD 1

/-- The contribution one pack-card pair makes to the accumulation dict
(lines 848-887): `none` when any guard fails or the final quantity is
not positive or the name is empty. -/
def player_contribution (cat : Catalog) (pack_quantities : List (String × Int))
    (excluded_cards : List String) (pc : String) (c : Card) : Option (PCKey × Int) :=
  if player_card_keep cat excluded_cards c then
    let final_quantity := c.quantity * pack_multiplier cat pack_quantities pc
    if c.name ≠ "" ∧ final_quantity > 0 then
      some (⟨c.name, pc, c.code⟩, final_quantity)
    else none
  else none

/-- The stream of contributions, in pack-iteration order. -/
def player_contribs (cat : Catalog) (selCodes : List String)
    (pack_quantities : List (String × Int)) (excluded_cards : List String) :
    List (PCKey × Int) :=
  selCodes.flatMap
    (fun pc => (get_pack_cards cat pc).filterMap
      (player_contribution cat pack_quantities excluded_cards pc))

/-- `card_set_quantities[key] += q` / `= q` (lines 884-887). -/
def accumStep (st : List (PCKey × Int)) (kv : PCKey × Int) : List (PCKey × Int) :=
  match alookup st kv.1 with
  | some v => aupdate st kv.1 (v + kv.2)
  | none => st ++ [kv]

/-- The full accumulation dict. -/
def accumAll (l : List (PCKey × Int)) : List (PCKey × Int) :=
  l.foldl accumStep []

/-- The PlayerCard bucket before its final sort (lines 889-892). -/
def player_entries_unsorted (cat : Catalog) (selCodes : List String)
    (pack_quantities : List (String × Int)) (excluded_cards : List String) : List Entry :=
  (accumAll (player_contribs cat selCodes pack_quantities excluded_cards)).map
    (fun kv => ⟨kv.2, kv.1.name, "AH" ++ strUpper kv.1.pack_code, kv.1.collector_number⟩)

/-- `generate_player_cards`, sorted by card name (line 895). -/
def generate_player_cards (cat : Catalog) (selCodes : List String)
    (pack_quantities : List (String × Int)) (excluded_cards : List String) : List Entry :=
  sortOrdered (fun a b => strLe a.name b.name)
    (player_entries_unsorted cat selCodes pack_quantities excluded_cards)

/-! ### `generate_basic_weaknesses_cards` (src/app.py lines 992-1069) -/

/-- The guard chain of the BasicWeaknesses loop (lines 1011-1029). -/
def bw_card_keep (cat : Catalog) (excluded_cards : List String) (c : Card) : Bool :=
  c.code ∈ player_card_codes cat ∧
  c.bonded_to = "" ∧
  c.subtype_code = "basicweakness" ∧
  c.name ≠ "" ∧
  strLower c.name ∉ excluded_cards

/-- The priority step of lines 1036-1057: revised core beats anything
that is not revised core; otherwise a strictly greater
`(cycle_position, position)` pair wins and ties keep the current
(first-seen) printing. -/
def bw_priority_update (pc : String) (pd : Pack) (c : Card) (cur : Card × Pack) : Card × Pack :=
  if pc = "rcore" ∧ cur.2.code ≠ "rcore" then (c, pd)
  else if cur.2.code = "rcore" ∧ pc ≠ "rcore" then cur
  else if pd.cycle_position > cur.2.cycle_position ∨
      (pd.cycle_position = cur.2.cycle_position ∧ pd.position > cur.2.position) then (c, pd)
  else cur

/-- One candidate folded into `best_cards_by_name` (lines 1033-1057). -/
def bw_insert (st : List (String × (Card × Pack))) (cand : String × Pack × Card) :
    List (String × (Card × Pack)) :=
  match alookup st cand.2.2.name with
  | none => st ++ [(cand.2.2.name, (cand.2.2, cand.2.1))]
  | some cur => aupdate st cand.2.2.name (bw_priority_update cand.1 cand.2.1 cand.2.2 cur)

/-- The candidate stream of the BasicWeaknesses loop, with each card
paired with its iteration pack code and looked-up pack data. -/
def bw_candidates (cat : Catalog) (selCodes : List String) (excluded_cards : List String) :
    List (String × Pack × Card) :=
  selCodes.flatMap
    (fun pc =>
      (get_pack_cards cat pc).filterMap
        (fun c => if bw_card_keep cat excluded_cards c
          then some (pc, packDataFor cat.packs pc, c) else none))

/-- The priority reduction of the BasicWeaknesses bucket in isolation. -/
def bw_resolve (cands : List (String × Pack × Card)) : List (String × (Card × Pack)) :=
  cands.foldl bw_insert []

/-- The BasicWeaknesses bucket before its final sort (lines 1060-1064). -/
def bw_entries_unsorted (cat : Catalog) (selCodes : List String)
    (excluded_cards : List String) : List Entry :=
  (bw_resolve (bw_candidates cat selCodes excluded_cards)).map
    (fun kv => ⟨1, kv.1, "AH" ++ strUpper kv.2.1.pack_code, kv.2.1.code⟩)

/-- `generate_basic_weaknesses_cards`, sorted by card name (line 1067). -/
def generate_basic_weaknesses_cards (cat : Catalog) (selCodes : List String)
    (excluded_cards : List String) : List Entry :=
  sortOrdered (fun a b => strLe a.name b.name) (bw_entries_unsorted cat selCodes excluded_cards)

/-! ### `generate_investigators_cards` (src/app.py lines 899-990) -/

/-- `normalize_pack_code` (lines 913-917): the core and revised-core
packs share one de-duplication slot. -/
def normalize_pack_code (pc : String) : String :=
  if pc = "core" ∨ pc = "rcore" then "core" else pc

/-- The guard chain of the Investigators loop (lines 924-942). -/
def inv_card_keep (cat : Catalog) (excluded_cards : List String) (c : Card) : Bool :=
  c.code ∈ player_card_codes cat ∧
  c.bonded_to = "" ∧
  c.type_code = "investigator" ∧
  c.name ≠ "" ∧
  strLower c.name ∉ excluded_cards

/-- The priority step of lines 956-977: revised core beats core (a rule
between those two packs only); otherwise a strictly greater
`(cycle_position, position)` pair wins and ties keep the current
(first-seen) printing. -/
def inv_priority_update (pc : String) (pd : Pack) (c : Card) (cur : Card × Pack) : Card × Pack :=
  if pc = "rcore" ∧ cur.2.code = "core" then (c, pd)
  else if cur.2.code = "rcore" ∧ pc = "core" then cur
  else if pd.cycle_position > cur.2.cycle_position ∨
      (pd.cycle_position = cur.2.cycle_position ∧ pd.position > cur.2.position) then (c, pd)
  else cur

/-- One candidate folded into `cards_by_name_and_pack`
(lines 946-977): outer key the card name, inner key the normalized
iteration pack code. -/
def inv_insert (st : List (String × List (String × (Card × Pack))))
    (cand : String × Pack × Card) : List (String × List (String × (Card × Pack))) :=
  let np := normalize_pack_code cand.1
  match alookup st cand.2.2.name with
  | none => st ++ [(cand.2.2.name, [(np, (cand.2.2, cand.2.1))])]
  | some inner =>
    match alookup inner np with
    | none => aupdate st cand.2.2.name (inner ++ [(np, (cand.2.2, cand.2.1))])
    | some cur =>
      aupdate st cand.2.2.name
        (aupdate inner np (inv_priority_update cand.1 cand.2.1 cand.2.2 cur))

/-- The candidate stream of the Investigators loop. -/
def inv_candidates (cat : Catalog) (selCodes : List String) (excluded_cards : List String) :
    List (String × Pack × Card) :=
  selCodes.flatMap
    (fun pc =>
      (get_pack_cards cat pc).filterMap
        (fun c => if inv_card_keep cat excluded_cards c
          then some (pc, packDataFor cat.packs pc, c) else none))

/-- The nested de-duplication state of the Investigators bucket. -/
def inv_resolve (cands : List (String × Pack × Card)) :
    List (String × List (String × (Card × Pack))) :=
  cands.foldl inv_insert []

/-- The Investigators bucket before its final sort (lines 980-985):
one line per name and normalized pack, labelled with the chosen card's
own pack code. -/
def inv_entries_unsorted (cat : Catalog) (selCodes : List String)
    (excluded_cards : List String) : List Entry :=
  (inv_resolve (inv_candidates cat selCodes excluded_cards)).flatMap
    (fun kv => kv.2.map
      (fun slot => ⟨1, kv.1, "AH" ++ strUpper slot.2.1.pack_code, slot.2.1.code⟩))

/-- `generate_investigators_cards`, sorted by name then set label
(line 988; the label shares the constant `AH` prefix, so ordering by
label and by the embedded pack code agree). -/
def generate_investigators_cards (cat : Catalog) (selCodes : List String)
    (excluded_cards : List String) : List Entry :=
  sortOrdered
    (fun a b => if a.name = b.name then strLe a.set_label b.set_label else strLe a.name b.name)
    (inv_entries_unsorted cat selCodes excluded_cards)

/-! ### `add_cards_to_include_to_lists` (src/app.py lines 150-381)

The function receives the three bucket line lists (strings) and mutates
them while building custom-card objects for the explicitly included
cards; it is modelled as a fold over the include dict with the state
below. -/

/-- The mutable state of the include-merging loop. -/
structure AddState where
  investigators : List String
  weaknesses : List String
  players : List String
  customs : List DraftmancerCard
  added : List String
deriving DecidableEq

/-- Lines 300-339: the custom-card object built for a related
(deck-requirement or bonded) card pulled in by an include. -/
def related_custom_of (rc : Card) : DraftmancerCard :=
  { name := rc.name
    image := format_image_url rc.imagesrc
    colors := faction_colors rc.faction_code
    mana_cost := mana_cost_str rc.cost
    type := type_code_map rc.type_code
    set := "AH" ++ strUpper rc.pack_code
    collector_number := rc.code
    rating := 0
    layout := if rc.type_code = "investigator" then some "split_left" else none
    related_cards := []
    face_up := rc.type_code = "investigator"
    add_cards := []
    back :=
      if rc.backimagesrc ≠ "" then
        some ⟨rc.name ++ " - back", format_image_url rc.backimagesrc,
          type_code_map rc.type_code,
          if rc.type_code = "investigator" then some "split_left" else none⟩
      else none }

/-- Lines 212-251: gather the related cards of an included card, skipping
names already added; returns the related-name list, the cards needing
their own custom entries, and the updated added-name set. -/
def gather_related (arkham_cards : List Card) (cd : Card) (added : List String) :
    List String × List Card × List String :=
  let step := fun (st : List String × List Card × List String) (code : String) =>
    match arkham_cards.find? (fun r => r.code == code) with
    | some rc =>
      if strLower rc.name ∈ st.2.2 then st
      else (st.1 ++ [rc.name], st.2.1 ++ [rc], sinsert st.2.2 (strLower rc.name))
    | none => st
  let st0 : List String × List Card × List String := ([], [], added)
  let st1 := if cd.type_code = "investigator" then cd.deck_requirements.foldl step st0 else st0
  (cd.bonded_cards.filter (fun b => b ≠ "")).foldl step st1

/-- Lines 179-287: the custom-card object built for the included card
itself (back face comes only from `backimagesrc` on this path). -/
def include_custom_of (card_name : String) (cd : Card) (related : List String) :
    DraftmancerCard :=
  { name := card_name
    image := format_image_url cd.imagesrc
    colors := faction_colors cd.faction_code
    mana_cost := mana_cost_str cd.cost
    type := type_code_map cd.type_code
    set := "AH" ++ strUpper cd.pack_code
    collector_number := cd.code
    rating := 0
    layout := if cd.type_code = "investigator" then some "split_left" else none
    related_cards := related
    face_up := cd.type_code = "investigator"
    add_cards := related
    back :=
      if cd.backimagesrc ≠ "" then
        some ⟨card_name ++ " - back", format_image_url cd.backimagesrc,
          type_code_map cd.type_code,
          if cd.type_code = "investigator" then some "split_left" else none⟩
      else none }

/-- Lines 356-379: merge a player include line into the player list,
matching by substring on the name and on `"(AH<pack>)"`, summing the
parsed quantity when the existing line parses. -/
def merge_player_entry (players : List String) (card_name entry pack_label : String)
    (quantity : Int) : List String :=
  match players.findIdx?
      (fun e => strContainsSub e card_name ∧ strContainsSub e pack_label) with
  | some i =>
    let existing := players.getD i ""
    match splitFirstSpace existing with
    | p0 :: p1 :: _ =>
      match parseInt p0 with
      | some q0 => players.set i (intToStr (q0 + quantity) ++ " " ++ p1)
      | none => players ++ [entry]
    | _ => players ++ [entry]
  | none => players ++ [entry]

/-- One include item folded into the state (lines 164-379). -/
def add_cards_step (arkham_cards : List Card) (st : AddState)
    (item : String × IncludeInfo) : AddState :=
  let info := item.2
  if strLower info.name ∈ st.added then st
  else
    let added := sinsert st.added (strLower info.name)
    let (customs, added) :=
      match info.data with
      | some cd =>
        let (related, to_add, added) := gather_related arkham_cards cd added
        (st.customs ++ [include_custom_of info.name cd related] ++ to_add.map related_custom_of,
         added)
      | none => (st.customs, added)
    let pack_label :=
      match info.data with
      | some cd => strUpper cd.pack_code
      | none => "CUSTOM"
    let coll :=
      match info.data with
      | some cd => cd.code
      | none => "001"
    let entry := intToStr info.quantity ++ " " ++ info.name ++ " (AH" ++ pack_label ++ ") " ++ coll
    if info.card_type = "investigator" then
      { st with
        investigators :=
          if entry ∈ st.investigators then st.investigators else st.investigators ++ [entry]
        customs := customs, added := added }
    else if info.card_type = "basicweakness" then
      { st with
        weaknesses := if entry ∈ st.weaknesses then st.weaknesses else st.weaknesses ++ [entry]
        customs := customs, added := added }
    else
      { st with
        players := merge_player_entry st.players info.name entry ("(AH" ++ pack_label ++ ")")
          info.quantity
        customs := customs, added := added }

/-- `add_cards_to_include_to_lists`: returns the three (possibly grown)
bucket line lists and the custom cards created for the includes.  The
`existing_custom_cards` argument seeds the duplicate-suppression set. -/
def add_cards_to_include_to_lists (cards_to_include : List (String × IncludeInfo))
    (investigators_cards basic_weaknesses_cards player_cards : List String)
    (arkham_cards : List Card) (existing_custom_cards : Option (List DraftmancerCard)) :
    List String × List String × List String × List DraftmancerCard :=
  if cards_to_include = [] then
    (investigators_cards, basic_weaknesses_cards, player_cards, [])
  else
    let added0 :=
      match existing_custom_cards with
      | some ecs => ecs.foldl (fun acc d => sinsert acc (strLower d.name)) []
      | none => []
    let st := cards_to_include.foldl (add_cards_step arkham_cards)
      ⟨investigators_cards, basic_weaknesses_cards, player_cards, [], added0⟩
    (st.investigators, st.weaknesses, st.players, st.customs)

/-! ### Catalog restrictions used to state exclusion properties -/

/-- The catalog with every xp-positive card removed from the per-pack
payloads. -/
def drop_xp_positive (cat : Catalog) : Catalog :=
  { cat with pack_cards := cat.pack_cards.map (fun p => (p.1, p.2.filter (fun c => ¬xpPositive c))) }

/-- The catalog with every bonded card removed from the per-pack
payloads. -/
def drop_bonded (cat : Catalog) : Catalog :=
  { cat with pack_cards := cat.pack_cards.map (fun p => (p.1, p.2.filter (fun c => c.bonded_to = ""))) }

/-! ### Reparsing bucket lines (used to state uniqueness over the
string lists the include merge manipulates; mirrors the splits the
source itself uses as sort keys) -/

/-- The characters before the first occurrence of `sep`
(Python `s.split(sep)[0]`). -/
def takeUntilSub (sep : List Char) : List Char → List Char
  | [] => []
  | c :: t => if beginsWithChars sep (c :: t) then [] else c :: takeUntilSub sep t

/-- The characters after the first occurrence of `sep`
(Python `s.split(sep, 1)[1]`, `[]` when `sep` does not occur). -/
def dropThroughSub (sep : List Char) : List Char → List Char
  | [] => []
  | c :: t => if beginsWithChars sep (c :: t) then (c :: t).drop sep.length else dropThroughSub sep t

/-- The name part of a bucket line: after the first space, before
`" (AH"` (exactly the sort key `x.split(' ', 1)[1].split(' (AH')[0]`
of lines 895 and 988). -/
def line_card_name (s : String) : String :=
  ⟨takeUntilSub " (AH".data ((splitFirstSpace s).getD 1 "").data⟩

/-- The set-label part of a bucket line: the piece
`x.split('(AH')[1].split(')')[0]` (line 988), re-prefixed with `AH`. -/
def line_set_label (s : String) : String :=
  "AH" ++ ⟨takeUntilSub ")".data (dropThroughSub "(AH".data s.data)⟩

/-- The collector-number part of a bucket line: everything after the
first `") "`. -/
def line_collector (s : String) : String :=
  ⟨dropThroughSub ") ".data s.data⟩

/-! ## Lemma layer -/

/-! ### Association-list lemmas -/

/-- The key list of an association list. -/
def keysOf {κ α : Type} (l : List (κ × α)) : List κ := l.map (·.1)

theorem alookup_nil {κ α : Type} [BEq κ] (k : κ) :
    alookup ([] : List (κ × α)) k = none := rfl

theorem alookup_cons {κ α : Type} [BEq κ] (p : κ × α) (l : List (κ × α)) (k : κ) :
    alookup (p :: l) k = if p.1 == k then some p.2 else alookup l k := by
  simp only [alookup, List.find?]
  cases h : p.1 == k <;> simp [h]

theorem alookup_append {κ α : Type} [BEq κ] (l₁ l₂ : List (κ × α)) (k : κ) :
    alookup (l₁ ++ l₂) k =
      match alookup l₁ k with
      | some v => some v
      | none => alookup l₂ k := by
  induction l₁ with
  | nil => simp [alookup_nil]
  | cons p t ih =>
    simp only [List.cons_append, alookup_cons]
    cases h : p.1 == k <;> simp [h, ih]

theorem alookup_eq_none_of_not_mem {κ α : Type} [BEq κ] [LawfulBEq κ]
    (l : List (κ × α)) (k : κ) (h : k ∉ keysOf l) : alookup l k = none := by
  induction l with
  | nil => rfl
  | cons p t ih =>
    rw [alookup_cons]
    have h1 : p.1 ≠ k := by
      intro he; exact h (by simp [keysOf, he])
    have h2 : k ∉ keysOf t := fun hm => h (by simp [keysOf] at hm ⊢; exact Or.inr hm)
    simp [h1, ih h2]

theorem not_mem_keys_of_alookup_none {κ α : Type} [BEq κ] [LawfulBEq κ]
    (l : List (κ × α)) (k : κ) (h : alookup l k = none) : k ∉ keysOf l := by
  induction l with
  | nil => simp [keysOf]
  | cons p t ih =>
    rw [alookup_cons] at h
    by_cases he : p.1 = k
    · simp [he] at h
    · rw [if_neg (by simp [he])] at h
      intro hm
      simp only [keysOf, List.map_cons, List.mem_cons] at hm
      rcases hm with hm | hm
      · exact he hm.symm
      · exact ih h (by simpa [keysOf] using hm)

theorem keysOf_aupdate {κ α : Type} [BEq κ] (l : List (κ × α)) (k : κ) (v : α) :
    keysOf (aupdate l k v) = keysOf l := by
  induction l with
  | nil => rfl
  | cons p t ih =>
    simp only [aupdate, List.map_cons, keysOf] at ih ⊢
    cases h : p.1 == k <;> simp [h, ih]

theorem keysOf_append {κ α : Type} (l₁ l₂ : List (κ × α)) :
    keysOf (l₁ ++ l₂) = keysOf l₁ ++ keysOf l₂ := by
  simp [keysOf]

theorem alookup_aupdate_self {κ α : Type} [BEq κ] [LawfulBEq κ]
    (l : List (κ × α)) (k : κ) (v w : α) (h : alookup l k = some v) :
    alookup (aupdate l k w) k = some w := by
  induction l with
  | nil => simp [alookup_nil] at h
  | cons p t ih =>
    rw [alookup_cons] at h
    by_cases he : p.1 = k
    · simp [aupdate, he, alookup_cons]
    · simp [he] at h
      simp [aupdate, he, alookup_cons] at ih ⊢
      exact ih h

theorem alookup_aupdate_ne {κ α : Type} [BEq κ] [LawfulBEq κ]
    (l : List (κ × α)) (k k' : κ) (w : α) (h : k ≠ k') :
    alookup (aupdate l k w) k' = alookup l k' := by
  induction l with
  | nil => rfl
  | cons p t ih =>
    show alookup ((if p.1 == k then (p.1, w) else p) :: aupdate t k w) k' = _
    by_cases he : p.1 = k
    · have hne : (p.1 == k') = false := by
        simp only [beq_eq_false_iff_ne, ne_eq, he]
        exact h
      have hk : (p.1 == k) = true := by simp [he]
      rw [if_pos hk, alookup_cons, alookup_cons]
      simp only [hne, if_false]
      exact ih
    · have hk : (p.1 == k) = false := by simp [he]
      rw [if_neg (by simp [hk]), alookup_cons, alookup_cons]
      cases hq : p.1 == k' <;> simp [hq, ih]

theorem mem_aupdate {κ α : Type} [BEq κ] [LawfulBEq κ]
    (l : List (κ × α)) (k : κ) (w : α) (p : κ × α) (h : p ∈ aupdate l k w) :
    p ∈ l ∨ (p.1 = k ∧ p.2 = w) := by
  simp only [aupdate, List.mem_map] at h
  obtain ⟨q, hq, he⟩ := h
  by_cases hk : q.1 = k
  · right
    have ht : (q.1 == k) = true := by simp [hk]
    rw [if_pos (by simp [ht])] at he
    rw [← he]
    exact ⟨hk, rfl⟩
  · left
    have ht : (q.1 == k) = false := by simp [hk]
    rw [if_neg (by simp [ht])] at he
    rwa [← he]

theorem alookup_of_mem_nodup {κ α : Type} [BEq κ] [LawfulBEq κ]
    (l : List (κ × α)) (p : κ × α) (h : p ∈ l) (hn : (keysOf l).Nodup) :
    alookup l p.1 = some p.2 := by
  induction l with
  | nil => simp at h
  | cons q t ih =>
    simp only [keysOf, List.map_cons, List.nodup_cons] at hn
    rcases List.mem_cons.mp h with he | hm
    · subst he; simp [alookup_cons]
    · have hq : q.1 ≠ p.1 := by
        intro he
        exact hn.1 (he ▸ List.mem_map.mpr ⟨p, hm, rfl⟩)
      simp [alookup_cons, hq]
      exact ih hm hn.2

theorem mem_of_alookup_eq_some {κ α : Type} [BEq κ] [LawfulBEq κ]
    (l : List (κ × α)) (k : κ) (v : α) (h : alookup l k = some v) : (k, v) ∈ l := by
  induction l with
  | nil => simp [alookup_nil] at h
  | cons p t ih =>
    rw [alookup_cons] at h
    by_cases he : p.1 = k
    · simp only [he, beq_self_eq_true, if_true, Option.some.injEq] at h
      have : (k, v) = p := by
        cases p with
        | mk a b => simp_all
      rw [this]
      exact List.mem_cons_self _ _
    · rw [if_neg (by simp [he])] at h
      exact List.mem_cons_of_mem _ (ih h)

/-! ### Stable-sort lemmas -/

theorem insertOrdered_perm {α : Type} (le : α → α → Bool) (x : α) (l : List α) :
    (insertOrdered le x l).Perm (x :: l) := by
  induction l with
  | nil => exact List.Perm.refl _
  | cons y ys ih =>
    unfold insertOrdered
    by_cases h : le y x = true
    · rw [if_pos h]
      exact (ih.cons y).trans (List.Perm.swap x y ys)
    · rw [if_neg h]

theorem sortOrdered_perm {α : Type} (le : α → α → Bool) (l : List α) :
    (sortOrdered le l).Perm l := by
  suffices h : ∀ acc : List α,
      (l.foldl (fun acc x => insertOrdered le x acc) acc).Perm (acc ++ l) by
    simpa using h []
  induction l with
  | nil => intro acc; simp
  | cons x xs ih =>
    intro acc
    simp only [List.foldl_cons]
    exact (ih (insertOrdered le x acc)).trans
      (((insertOrdered_perm le x acc).append_right xs).trans List.perm_middle.symm)

theorem mem_sortOrdered {α : Type} (le : α → α → Bool) (l : List α) (x : α) :
    x ∈ sortOrdered le l ↔ x ∈ l :=
  (sortOrdered_perm le l).mem_iff

/-! ### PlayerCard accumulation lemmas -/

/-- Total contribution landing on key `k` in a contribution stream. -/
def sum_at (l : List (PCKey × Int)) (k : PCKey) : Int :=
  ((l.filter (fun p => p.1 == k)).map (fun p => p.2)).sum

/-- Some contribution lands on key `k`. -/
def has_key (l : List (PCKey × Int)) (k : PCKey) : Bool :=
  l.any (fun p => p.1 == k)

theorem sum_at_cons (kv : PCKey × Int) (l : List (PCKey × Int)) (k : PCKey) :
    sum_at (kv :: l) k = if kv.1 = k then kv.2 + sum_at l k else sum_at l k := by
  by_cases h : kv.1 = k <;> simp [sum_at, List.filter_cons, h]

theorem has_key_cons (kv : PCKey × Int) (l : List (PCKey × Int)) (k : PCKey) :
    has_key (kv :: l) k = ((kv.1 = k) || has_key l k) := by
  by_cases h : kv.1 = k <;> simp [has_key, h]

theorem accumStep_cases (st : List (PCKey × Int)) (kv : PCKey × Int) :
    (∃ v, alookup st kv.1 = some v ∧ accumStep st kv = aupdate st kv.1 (v + kv.2)) ∨
    (alookup st kv.1 = none ∧ accumStep st kv = st ++ [kv]) := by
  unfold accumStep
  cases h : alookup st kv.1 with
  | some v => exact Or.inl ⟨v, rfl, rfl⟩
  | none => exact Or.inr ⟨rfl, rfl⟩

theorem accum_lookup_general :
    ∀ (l st : List (PCKey × Int)) (k : PCKey),
      alookup (l.foldl accumStep st) k =
        match alookup st k with
        | some v => some (v + sum_at l k)
        | none => if has_key l k then some (sum_at l k) else none := by
  intro l
  induction l with
  | nil =>
    intro st k
    cases h : alookup st k <;> simp [sum_at, has_key, h]
  | cons kv rest ih =>
    intro st k
    simp only [List.foldl_cons]
    rw [ih]
    rcases accumStep_cases st kv with ⟨v, hl, hs⟩ | ⟨hl, hs⟩
    · by_cases hk : kv.1 = k
      · subst hk
        rw [hs, alookup_aupdate_self st kv.1 v (v + kv.2) hl, hl]
        rw [sum_at_cons]
        simp only [if_pos rfl]
        have : v + kv.2 + sum_at rest kv.1 = v + (kv.2 + sum_at rest kv.1) := by ring
        simp [this]
      · rw [hs, alookup_aupdate_ne st kv.1 k _ hk]
        rw [sum_at_cons, has_key_cons]
        simp only [hk, if_false, Bool.false_or, false_or]
        cases hst : alookup st k <;> simp
    · by_cases hk : kv.1 = k
      · subst hk
        rw [hs, alookup_append, hl]
        simp only [alookup_cons, beq_self_eq_true, if_pos]
        rw [sum_at_cons, has_key_cons]
        simp
      · rw [hs, alookup_append]
        rw [sum_at_cons, has_key_cons]
        have hne : (kv.1 == k) = false := by simp [hk]
        simp only [hk, if_false, alookup_cons, hne, Bool.false_or, false_or]
        cases hst : alookup st k <;> simp [alookup_nil]

theorem mem_keys_foldl_accum :
    ∀ (l st : List (PCKey × Int)) (k : PCKey),
      k ∈ keysOf (l.foldl accumStep st) → k ∈ keysOf st ∨ k ∈ keysOf l := by
  intro l
  induction l with
  | nil => intro st k h; exact Or.inl h
  | cons kv rest ih =>
    intro st k h
    simp only [List.foldl_cons] at h
    rcases ih _ _ h with h1 | h1
    · rcases accumStep_cases st kv with ⟨v, _, hs⟩ | ⟨_, hs⟩
      · rw [hs, keysOf_aupdate] at h1
        exact Or.inl h1
      · rw [hs, keysOf_append] at h1
        rcases List.mem_append.mp h1 with h2 | h2
        · exact Or.inl h2
        · simp only [keysOf, List.map_cons, List.map_nil, List.mem_singleton] at h2
          exact Or.inr (by simp [keysOf, h2])
    · exact Or.inr (by simp [keysOf] at h1 ⊢; exact Or.inr h1)

theorem keys_nodup_foldl_accum :
    ∀ (l st : List (PCKey × Int)), (keysOf st).Nodup →
      (keysOf (l.foldl accumStep st)).Nodup := by
  intro l
  induction l with
  | nil => intro st h; exact h
  | cons kv rest ih =>
    intro st h
    simp only [List.foldl_cons]
    apply ih
    rcases accumStep_cases st kv with ⟨v, _, hs⟩ | ⟨hl, hs⟩
    · rw [hs, keysOf_aupdate]; exact h
    · rw [hs, keysOf_append]
      have hnm : kv.1 ∉ keysOf st := not_mem_keys_of_alookup_none st kv.1 hl
      rw [List.nodup_append]
      refine ⟨h, by simp [keysOf], ?_⟩
      intro a ha hb
      simp only [keysOf, List.map_cons, List.map_nil, List.mem_singleton] at hb
      exact hnm (hb ▸ ha)

theorem values_pos_foldl_accum :
    ∀ (l st : List (PCKey × Int)), (∀ p ∈ st, 0 < p.2) → (∀ p ∈ l, 0 < p.2) →
      ∀ p ∈ l.foldl accumStep st, 0 < p.2 := by
  intro l
  induction l with
  | nil => intro st hst _ p hp; exact hst p hp
  | cons kv rest ih =>
    intro st hst hl p hp
    simp only [List.foldl_cons] at hp
    have hkv : 0 < kv.2 := hl kv (List.mem_cons_self _ _)
    have hrest : ∀ p ∈ rest, 0 < p.2 := fun q hq => hl q (List.mem_cons_of_mem _ hq)
    refine ih _ ?_ hrest p hp
    intro q hq
    rcases accumStep_cases st kv with ⟨v, hlk, hs⟩ | ⟨_, hs⟩
    · rw [hs] at hq
      rcases mem_aupdate _ _ _ _ hq with h1 | ⟨_, h2⟩
      · exact hst q h1
      · have hv : 0 < v := hst (kv.1, v) (mem_of_alookup_eq_some _ _ _ hlk)
        rw [h2]
        omega
    · rw [hs] at hq
      rcases List.mem_append.mp hq with h1 | h1
      · exact hst q h1
      · simp only [List.mem_singleton] at h1
        rw [h1]
        exact hkv

/-! ### Contribution-spec lemmas -/

theorem player_contribution_some (cat : Catalog) (pq : List (String × Int))
    (ex : List String) (pc : String) (c : Card) (kv : PCKey × Int)
    (h : player_contribution cat pq ex pc c = some kv) :
    kv.1.name = c.name ∧ kv.1.pack_code = pc ∧ kv.1.collector_number = c.code ∧
      player_card_keep cat ex c = true ∧ c.name ≠ "" ∧ 0 < kv.2 ∧
      kv.2 = c.quantity * pack_multiplier cat pq pc := by
  unfold player_contribution at h
  by_cases h1 : player_card_keep cat ex c = true
  · rw [if_pos h1] at h
    by_cases h2 : c.name ≠ "" ∧ c.quantity * pack_multiplier cat pq pc > 0
    · rw [if_pos h2] at h
      obtain ⟨hn, hq⟩ := h2
      cases h
      exact ⟨rfl, rfl, rfl, h1, hn, hq, rfl⟩
    · rw [if_neg h2] at h
      cases h
  · rw [if_neg h1] at h
    cases h

theorem mem_player_contribs (cat : Catalog) (sel : List String)
    (pq : List (String × Int)) (ex : List String) (kv : PCKey × Int) :
    kv ∈ player_contribs cat sel pq ex ↔
      ∃ pc, pc ∈ sel ∧ ∃ c, c ∈ get_pack_cards cat pc ∧
        player_contribution cat pq ex pc c = some kv := by
  simp [player_contribs, List.mem_flatMap, List.mem_filterMap]

theorem mem_keys_player_contribs (cat : Catalog) (sel : List String)
    (pq : List (String × Int)) (ex : List String) (k : PCKey)
    (h : k ∈ keysOf (player_contribs cat sel pq ex)) :
    ∃ pc, pc ∈ sel ∧ ∃ c, c ∈ get_pack_cards cat pc ∧
      k.name = c.name ∧ k.pack_code = pc ∧ k.collector_number = c.code ∧
      player_card_keep cat ex c = true ∧ c.name ≠ "" := by
  simp only [keysOf, List.mem_map] at h
  obtain ⟨kv, hkv, rfl⟩ := h
  obtain ⟨pc, hpc, c, hc, hcon⟩ := (mem_player_contribs cat sel pq ex kv).mp hkv
  obtain ⟨h1, h2, h3, h4, h5, _, _⟩ := player_contribution_some cat pq ex pc c kv hcon
  exact ⟨pc, hpc, c, hc, h1, h2, h3, h4, h5⟩

theorem player_contribs_pos (cat : Catalog) (sel : List String)
    (pq : List (String × Int)) (ex : List String) :
    ∀ p ∈ player_contribs cat sel pq ex, 0 < p.2 := by
  intro p hp
  obtain ⟨pc, _, c, _, hcon⟩ := (mem_player_contribs cat sel pq ex p).mp hp
  exact (player_contribution_some cat pq ex pc c p hcon).2.2.2.2.2.1

theorem mem_generate_player_cards (cat : Catalog) (sel : List String)
    (pq : List (String × Int)) (ex : List String) (e : Entry) :
    e ∈ generate_player_cards cat sel pq ex ↔
      ∃ kv, kv ∈ accumAll (player_contribs cat sel pq ex) ∧
        e = ⟨kv.2, kv.1.name, "AH" ++ strUpper kv.1.pack_code, kv.1.collector_number⟩ := by
  rw [generate_player_cards, mem_sortOrdered]
  unfold player_entries_unsorted
  rw [List.mem_map]
  constructor
  · rintro ⟨kv, h1, h2⟩
    exact ⟨kv, h1, h2.symm⟩
  · rintro ⟨kv, h1, h2⟩
    exact ⟨kv, h1, h2.symm⟩

/-! ### Concrete instances shared by witnesses and counterexamples -/

def packP1 : Pack := ⟨"p1", "Pack One", 1, 1⟩

def packP2 : Pack := ⟨"p2", "Pack Two", 1, 2⟩

def knifeP1 : Card :=
  ⟨"k1", "Knife", "p1", "asset", "", "rogue", some 1, none, 2, false, "", [], [], "", "", ""⟩

def knifeP2 : Card :=
  ⟨"k2", "Knife", "p2", "asset", "", "rogue", some 1, none, 2, false, "", [], [], "", "", ""⟩

/-- A catalog holding the same logical card in two selected packs. -/
def twoPackCat : Catalog :=
  ⟨[packP1, packP2], [knifeP1, knifeP2], [("p1", [knifeP1]), ("p2", [knifeP2])]⟩

/-! ## Claim theorems -/

/-- C10: every entry of the PlayerCard bucket carries a strictly
positive quantity and a non-empty name: a card whose per-pack quantity
times the pack multiplier is zero or negative, or whose name is empty,
produces no entry at all (the guard `if card_name and final_quantity > 0`
of lines 876-887 runs before the accumulation, and sums of the positive
surviving contributions stay positive). -/
theorem c10_player_entries_positive (cat : Catalog) (sel : List String)
    (pq : List (String × Int)) (ex : List String) (e : Entry)
    (he : e ∈ generate_player_cards cat sel pq ex) :
    0 < e.quantity ∧ e.name ≠ "" := by
  obtain ⟨kv, hkv, rfl⟩ := (mem_generate_player_cards cat sel pq ex e).mp he
  refine ⟨?_, ?_⟩
  · exact values_pos_foldl_accum _ [] (by simp) (player_contribs_pos cat sel pq ex) kv hkv
  · have hk : kv.1 ∈ keysOf (accumAll (player_contribs cat sel pq ex)) :=
      List.mem_map.mpr ⟨kv, hkv, rfl⟩
    rcases mem_keys_foldl_accum _ [] _ hk with h0 | h0
    · simp [keysOf] at h0
    · obtain ⟨pc, _, c, _, h1, _, _, _, h5⟩ :=
        mem_keys_player_contribs cat sel pq ex kv.1 h0
      show kv.1.name ≠ ""
      rw [h1]
      exact h5

/-- C10 witness: a concrete bucket entry, with the theorem applied to it. -/
theorem c10_witness :
    (⟨2, "Knife", "AHP1", "k1"⟩ : Entry) ∈ generate_player_cards twoPackCat ["p1", "p2"] [] [] ∧
      (0 < (⟨2, "Knife", "AHP1", "k1"⟩ : Entry).quantity ∧
        (⟨2, "Knife", "AHP1", "k1"⟩ : Entry).name ≠ "") :=
  ⟨by decide, c10_player_entries_positive twoPackCat ["p1", "p2"] [] [] _ (by decide)⟩

/-- C6: the PlayerCard bucket performs no cross-printing
canonicalization.  Its accumulation dict is keyed by
`(name, pack, collector-number)`; every key occurs once; the stored
quantity is exactly the sum of the per-pack contributions
`base-quantity * pack-multiplier` landing on that key (and absent keys
store nothing).  Concretely, one logical card drawn from two selected
packs yields two entries. -/
theorem c6_player_accumulation :
    (∀ (cat : Catalog) (sel : List String) (pq : List (String × Int)) (ex : List String),
      (keysOf (accumAll (player_contribs cat sel pq ex))).Nodup ∧
      ∀ k : PCKey,
        alookup (accumAll (player_contribs cat sel pq ex)) k =
          if has_key (player_contribs cat sel pq ex) k
          then some (sum_at (player_contribs cat sel pq ex) k) else none) ∧
    generate_player_cards twoPackCat ["p1", "p2"] [] [] =
      [⟨2, "Knife", "AHP1", "k1"⟩, ⟨2, "Knife", "AHP2", "k2"⟩] := by
  constructor
  · intro cat sel pq ex
    refine ⟨keys_nodup_foldl_accum _ [] (by simp [keysOf]), ?_⟩
    intro k
    have h := accum_lookup_general (player_contribs cat sel pq ex) [] k
    simpa [alookup_nil] using h
  · decide

/-! ### Filter-commutation and catalog-restriction lemmas -/

theorem filterMap_filter_of_none {α β : Type} (p : α → Bool) (f : α → Option β)
    (l : List α) (h : ∀ x ∈ l, p x = false → f x = none) :
    (l.filter p).filterMap f = l.filterMap f := by
  induction l with
  | nil => rfl
  | cons a t ih =>
    have ht : ∀ x ∈ t, p x = false → f x = none :=
      fun x hx => h x (List.mem_cons_of_mem _ hx)
    rw [List.filter_cons]
    by_cases hp : p a = true
    · simp only [hp, if_true]
      rw [List.filterMap_cons, List.filterMap_cons]
      cases f a <;> simp [ih ht]
    · have hfa : f a = none := h a (List.mem_cons_self _ _) (by simpa using hp)
      simp only [hp, Bool.false_eq_true, if_false]
      rw [List.filterMap_cons, hfa, ih ht]

theorem alookup_map_value {κ α β : Type} [BEq κ] (l : List (κ × α)) (f : α → β) (k : κ) :
    alookup (l.map (fun p => (p.1, f p.2))) k = (alookup l k).map f := by
  induction l with
  | nil => rfl
  | cons p t ih =>
    simp only [List.map_cons, alookup_cons]
    cases h : p.1 == k <;> simp [h, ih]

theorem get_pack_cards_drop_xp (cat : Catalog) (pc : String) :
    get_pack_cards (drop_xp_positive cat) pc =
      (get_pack_cards cat pc).filter (fun c => ¬xpPositive c) := by
  unfold get_pack_cards drop_xp_positive
  rw [alookup_map_value]
  cases alookup cat.pack_cards pc <;> simp

theorem get_pack_cards_drop_bonded (cat : Catalog) (pc : String) :
    get_pack_cards (drop_bonded cat) pc =
      (get_pack_cards cat pc).filter (fun c => c.bonded_to = "") := by
  unfold get_pack_cards drop_bonded
  rw [alookup_map_value]
  cases alookup cat.pack_cards pc <;> simp

theorem player_contribution_none_of_xp (cat : Catalog) (pq : List (String × Int))
    (ex : List String) (pc : String) (c : Card) (h : xpPositive c = true) :
    player_contribution cat pq ex pc c = none := by
  unfold player_contribution
  rw [if_neg]
  intro hk
  simp only [player_card_keep, decide_eq_true_eq] at hk
  exact hk.2.2.2.2.2.1 h

theorem player_contribution_none_of_bonded (cat : Catalog) (pq : List (String × Int))
    (ex : List String) (pc : String) (c : Card) (h : c.bonded_to ≠ "") :
    player_contribution cat pq ex pc c = none := by
  unfold player_contribution
  rw [if_neg]
  intro hk
  simp only [player_card_keep, decide_eq_true_eq] at hk
  exact h hk.2.1

theorem player_contribs_drop_xp (cat : Catalog) (sel : List String)
    (pq : List (String × Int)) (ex : List String) :
    player_contribs (drop_xp_positive cat) sel pq ex = player_contribs cat sel pq ex := by
  unfold player_contribs
  induction sel with
  | nil => rfl
  | cons pc rest ih =>
    rw [List.flatMap_cons, List.flatMap_cons, ih]
    congr 1
    rw [get_pack_cards_drop_xp]
    have hcongr :
        (get_pack_cards cat pc).filterMap
            (player_contribution (drop_xp_positive cat) pq ex pc) =
          (get_pack_cards cat pc).filterMap (player_contribution cat pq ex pc) := rfl
    calc ((get_pack_cards cat pc).filter (fun c => ¬xpPositive c)).filterMap
          (player_contribution (drop_xp_positive cat) pq ex pc)
        = ((get_pack_cards cat pc).filter (fun c => ¬xpPositive c)).filterMap
            (player_contribution cat pq ex pc) := rfl
      _ = (get_pack_cards cat pc).filterMap (player_contribution cat pq ex pc) := by
          apply filterMap_filter_of_none
          intro x _ hx
          simp only [decide_eq_false_iff_not, Decidable.not_not] at hx
          exact player_contribution_none_of_xp cat pq ex pc x hx

theorem player_contribs_drop_bonded (cat : Catalog) (sel : List String)
    (pq : List (String × Int)) (ex : List String) :
    player_contribs (drop_bonded cat) sel pq ex = player_contribs cat sel pq ex := by
  unfold player_contribs
  induction sel with
  | nil => rfl
  | cons pc rest ih =>
    rw [List.flatMap_cons, List.flatMap_cons, ih]
    congr 1
    rw [get_pack_cards_drop_bonded]
    calc ((get_pack_cards cat pc).filter (fun c => c.bonded_to = "")).filterMap
          (player_contribution (drop_bonded cat) pq ex pc)
        = ((get_pack_cards cat pc).filter (fun c => c.bonded_to = "")).filterMap
            (player_contribution cat pq ex pc) := rfl
      _ = (get_pack_cards cat pc).filterMap (player_contribution cat pq ex pc) := by
          apply filterMap_filter_of_none
          intro x _ hx
          simp only [decide_eq_false_iff_not] at hx
          exact player_contribution_none_of_bonded cat pq ex pc x hx

theorem bw_candidates_drop_bonded (cat : Catalog) (sel : List String) (ex : List String) :
    bw_candidates (drop_bonded cat) sel ex = bw_candidates cat sel ex := by
  unfold bw_candidates
  induction sel with
  | nil => rfl
  | cons pc rest ih =>
    rw [List.flatMap_cons, List.flatMap_cons, ih]
    congr 1
    rw [get_pack_cards_drop_bonded]
    calc ((get_pack_cards cat pc).filter (fun c => c.bonded_to = "")).filterMap
          (fun c => if bw_card_keep (drop_bonded cat) ex c
            then some (pc, packDataFor (drop_bonded cat).packs pc, c) else none)
        = ((get_pack_cards cat pc).filter (fun c => c.bonded_to = "")).filterMap
            (fun c => if bw_card_keep cat ex c
              then some (pc, packDataFor cat.packs pc, c) else none) := rfl
      _ = (get_pack_cards cat pc).filterMap
            (fun c => if bw_card_keep cat ex c
              then some (pc, packDataFor cat.packs pc, c) else none) := by
          apply filterMap_filter_of_none
          intro x _ hx
          simp only [decide_eq_false_iff_not] at hx
          rw [if_neg]
          intro hk
          simp only [bw_card_keep, decide_eq_true_eq] at hk
          exact hx hk.2.1

theorem inv_candidates_drop_bonded (cat : Catalog) (sel : List String) (ex : List String) :
    inv_candidates (drop_bonded cat) sel ex = inv_candidates cat sel ex := by
  unfold inv_candidates
  induction sel with
  | nil => rfl
  | cons pc rest ih =>
    rw [List.flatMap_cons, List.flatMap_cons, ih]
    congr 1
    rw [get_pack_cards_drop_bonded]
    calc ((get_pack_cards cat pc).filter (fun c => c.bonded_to = "")).filterMap
          (fun c => if inv_card_keep (drop_bonded cat) ex c
            then some (pc, packDataFor (drop_bonded cat).packs pc, c) else none)
        = ((get_pack_cards cat pc).filter (fun c => c.bonded_to = "")).filterMap
            (fun c => if inv_card_keep cat ex c
              then some (pc, packDataFor cat.packs pc, c) else none) := rfl
      _ = (get_pack_cards cat pc).filterMap
            (fun c => if inv_card_keep cat ex c
              then some (pc, packDataFor cat.packs pc, c) else none) := by
          apply filterMap_filter_of_none
          intro x _ hx
          simp only [decide_eq_false_iff_not] at hx
          rw [if_neg]
          intro hk
          simp only [inv_card_keep, decide_eq_true_eq] at hk
          exact hx hk.2.1

/-! ### Set-insertion and required-set lemmas -/

theorem mem_sinsert_of_mem {α : Type} [BEq α] [LawfulBEq α] (l : List α) (x y : α)
    (h : y ∈ l) : y ∈ sinsert l x := by
  unfold sinsert
  split
  · exact h
  · exact List.mem_append_left _ h

theorem mem_sinsert_self {α : Type} [BEq α] [LawfulBEq α] (l : List α) (x : α) :
    x ∈ sinsert l x := by
  unfold sinsert
  by_cases h : l.contains x
  · rw [if_pos h]
    simpa using h
  · rw [if_neg h]
    exact List.mem_append_right _ (List.mem_singleton.mpr rfl)

theorem mem_sinsertAll_of_mem {α : Type} [BEq α] [LawfulBEq α] (l xs : List α) (y : α)
    (h : y ∈ l) : y ∈ sinsertAll l xs := by
  induction xs generalizing l with
  | nil => exact h
  | cons x t ih => exact ih _ (mem_sinsert_of_mem l x y h)

theorem mem_sinsertAll_self {α : Type} [BEq α] [LawfulBEq α] (l xs : List α) (x : α)
    (h : x ∈ xs) : x ∈ sinsertAll l xs := by
  induction xs generalizing l with
  | nil => simp at h
  | cons a t ih =>
    rcases List.mem_cons.mp h with he | hm
    · subst he
      exact mem_sinsertAll_of_mem (sinsert l x) t x (mem_sinsert_self l x)
    · exact ih _ hm

theorem required_step_mono (selCodes : List String) (acc : List String) (c : Card)
    (x : String) (h : x ∈ acc) : x ∈ required_step selCodes acc c := by
  unfold required_step
  split
  · apply mem_sinsertAll_of_mem
    split
    · exact mem_sinsertAll_of_mem _ _ _ h
    · exact h
  · exact h

theorem foldl_required_mono (selCodes : List String) :
    ∀ (l : List Card) (acc : List String) (x : String), x ∈ acc →
      x ∈ l.foldl (required_step selCodes) acc := by
  intro l
  induction l with
  | nil => intro acc x h; exact h
  | cons c t ih =>
    intro acc x h
    exact ih _ _ (required_step_mono selCodes acc c x h)

theorem required_contains_bonded (cat : Catalog) (selCodes : List String)
    (host : Card) (bc : String) (hhost : host ∈ cat.cards)
    (hsel : host.pack_code ∈ selCodes) (hbc : bc ∈ host.bonded_cards) (hne : bc ≠ "") :
    bc ∈ required_card_codes cat selCodes := by
  obtain ⟨l1, l2, hsplit⟩ := List.append_of_mem hhost
  unfold required_card_codes
  rw [hsplit, List.foldl_append, List.foldl_cons]
  apply foldl_required_mono
  unfold required_step
  rw [if_pos hsel]
  exact mem_sinsertAll_self _ _ _ (List.mem_filter.mpr ⟨hbc, by simp [hne]⟩)

/-! ### C1 instances -/

/-- An investigator printing with positive xp. -/
def xpInvCard : Card :=
  ⟨"i1", "Inv", "p1", "investigator", "", "guardian", some 0, some 2, 1, false, "", [], [],
    "", "", ""⟩

def xpCat : Catalog := ⟨[packP1], [xpInvCard], [("p1", [xpInvCard])]⟩

/-- C1 counterexample: the Investigators generator applies no xp filter,
so a card with `xp = 2` appears as an entry of the Investigator bucket
(the claim asserts it never appears in any bucket). -/
theorem c1_counterexample :
    xpPositive xpInvCard = true ∧
    (generate_investigators_cards xpCat ["p1"] []).map
        (fun e => (e.name, e.collector_number)) =
      [(xpInvCard.name, xpInvCard.code)] := by decide

/-- C1 amended: only the PlayerCard bucket filters on xp; removing every
xp-positive card from the per-pack payloads leaves `generate_player_cards`
unchanged, i.e. an xp-positive card never contributes a PlayerCard entry.
(The Investigator and BasicWeakness generators have no such filter — see
the counterexample.) -/
theorem c1_xp_never_in_player_bucket (cat : Catalog) (sel : List String)
    (pq : List (String × Int)) (ex : List String) :
    generate_player_cards (drop_xp_positive cat) sel pq ex =
      generate_player_cards cat sel pq ex := by
  unfold generate_player_cards player_entries_unsorted
  rw [player_contribs_drop_xp]

/-! ### C7 instances -/

/-- A host card in a selected pack listing a bonded companion. -/
def hostCard : Card :=
  ⟨"h1", "Host", "p1", "asset", "", "neutral", none, none, 1, false, "", ["b1"], [], "", "", ""⟩

/-- The bonded companion (no xp), living in an unselected pack. -/
def bondedCard : Card :=
  ⟨"b1", "Bonded", "p2", "asset", "", "neutral", none, none, 1, false, "h1", [], [], "", "", ""⟩

/-- The same companion but with positive xp. -/
def bondedXpCard : Card :=
  ⟨"b1", "Bonded", "p2", "asset", "", "neutral", none, some 1, 1, false, "h1", [], [], "", "", ""⟩

def bondedCat : Catalog :=
  ⟨[packP1, packP2], [hostCard, bondedCard], [("p1", [hostCard]), ("p2", [bondedCard])]⟩

def bondedXpCat : Catalog :=
  ⟨[packP1, packP2], [hostCard, bondedXpCard], [("p1", [hostCard]), ("p2", [bondedXpCard])]⟩

/-- C7 counterexample: a bonded card with positive xp is dropped by the
pool's xp filter, so it does not appear in the emitted CustomCards pool
even though its host (listing it in `bonded_cards`) is in a selected
pack — the claim's "always appears" fails. -/
theorem c7_counterexample :
    bondedXpCard.bonded_to ≠ "" ∧
    hostCard.pack_code ∈ selected_pack_codes_of bondedXpCat.packs ["Pack One"] ∧
    "b1" ∈ hostCard.bonded_cards ∧
    (convert_to_draftmancer_cards bondedXpCat ["Pack One"]).map
        (fun d => d.collector_number) = ["h1"] := by decide

/-- C7 amended: a bonded card never appears as a standalone entry in any
of the three buckets (removing bonded cards from the pack payloads
leaves all three generators unchanged), and it appears in the emitted
CustomCards pool whenever a card of a selected pack lists it in
`bonded_cards` — provided the bonded card itself passes the pool
filters: its code is non-empty, its xp is not positive, and it is not a
`b`-suffixed code that a selected card links to. -/
theorem c7_bonded_suppressed_but_pooled :
    (∀ (cat : Catalog) (sel : List String) (pq : List (String × Int)) (ex : List String),
      generate_investigators_cards (drop_bonded cat) sel ex =
          generate_investigators_cards cat sel ex ∧
      generate_basic_weaknesses_cards (drop_bonded cat) sel ex =
          generate_basic_weaknesses_cards cat sel ex ∧
      generate_player_cards (drop_bonded cat) sel pq ex =
          generate_player_cards cat sel pq ex) ∧
    (∀ (cat : Catalog) (names : List String) (host b : Card),
      host ∈ cat.cards →
      host.pack_code ∈ selected_pack_codes_of cat.packs names →
      b ∈ cat.cards →
      b.code ∈ host.bonded_cards →
      b.code ≠ "" →
      ¬xpPositive b →
      (strEndsWith b.code "b" = true →
        ¬front_card_exists cat (selected_pack_codes_of cat.packs names) b.code) →
      ∃ dc ∈ convert_to_draftmancer_cards cat names, dc.collector_number = b.code) := by
  constructor
  · intro cat sel pq ex
    refine ⟨?_, ?_, ?_⟩
    · unfold generate_investigators_cards inv_entries_unsorted inv_resolve
      rw [inv_candidates_drop_bonded]
    · unfold generate_basic_weaknesses_cards bw_entries_unsorted bw_resolve
      rw [bw_candidates_drop_bonded]
    · unfold generate_player_cards player_entries_unsorted
      rw [player_contribs_drop_bonded]
  · intro cat names host b hhost hsel hb hbc hne hxp hback
    have hreq : b.code ∈ required_card_codes cat (selected_pack_codes_of cat.packs names) :=
      required_contains_bonded cat _ host b.code hhost hsel hbc hne
    have htest : filtered_card_test cat (selected_pack_codes_of cat.packs names) b = true := by
      simp only [filtered_card_test, card_in_scope, decide_eq_true_eq]
      refine ⟨Or.inr hreq, hxp, ?_⟩
      split
      · next hsuf => exact hback hsuf
      · trivial
    have hmem : b ∈ filtered_cards cat (selected_pack_codes_of cat.packs names) :=
      List.mem_filter.mpr ⟨hb, htest⟩
    unfold convert_to_draftmancer_cards
    exact ⟨to_draftmancer_card cat (selected_pack_codes_of cat.packs names)
        (filtered_cards cat (selected_pack_codes_of cat.packs names)) b,
      List.mem_map.mpr ⟨b, hmem, rfl⟩, rfl⟩

/-- C7 witness: on the concrete catalog the invariance holds and the
xp-free bonded companion does reach the pool. -/
theorem c7_witness :
    (generate_player_cards (drop_bonded bondedCat) ["p1", "p2"] [] [] =
      generate_player_cards bondedCat ["p1", "p2"] [] []) ∧
    ∃ dc ∈ convert_to_draftmancer_cards bondedCat ["Pack One"],
      dc.collector_number = bondedCard.code :=
  ⟨(c7_bonded_suppressed_but_pooled.1 bondedCat ["p1", "p2"] [] []).2.2,
    c7_bonded_suppressed_but_pooled.2 bondedCat ["Pack One"] hostCard bondedCard
      (by decide) (by decide) (by decide) (by decide) (by decide) (by decide) (by decide)⟩

/-! ### C9: malformed include / exclude lines -/

theorem process_include_malformed (lookupTable : List (String × Card))
    (st : List (String × IncludeInfo)) (line : String)
    (hmal : parseInt (firstToken line) = none) :
    process_include_line lookupTable st line = st := by
  unfold process_include_line
  by_cases hs : strStrip line = ""
  · rw [if_pos hs]
  · rw [if_neg hs]
    unfold firstToken at hmal
    cases h : splitFirstSpace (strStrip line) with
    | nil => simp [h]
    | cons p0 rest =>
      cases rest with
      | nil => simp [h]
      | cons p1 rest2 =>
        rw [h] at hmal
        simp only [List.headD_cons] at hmal
        simp [h, hmal]

theorem process_exclude_malformed (st : List String) (line : String)
    (hne : strStrip line ≠ "") (hmal : parseInt (firstToken line) = none) :
    process_exclude_line st line = sinsert st (strLower (strStrip line)) := by
  unfold process_exclude_line
  rw [if_neg hne]
  unfold firstToken at hmal
  cases h : splitFirstSpace (strStrip line) with
  | nil => simp [h]
  | cons p0 rest =>
    cases rest with
    | nil => simp [h]
    | cons p1 rest2 =>
      rw [h] at hmal
      simp only [List.headD_cons] at hmal
      simp [h, hmal]

/-- C9: a line whose first whitespace-separated token does not parse as
an integer is skipped by the include parser — the fold over the
surrounding lines behaves as if the line were absent, so later lines are
still processed and nothing is raised — while the exclude parser treats
such a (non-blank) line in its entirety as a lower-cased card name.
(Both parsers are total functions by construction, so no error can
escape them on any input text.) -/
theorem c9_malformed_lines_recovered (lookupTable : List (String × Card))
    (acc : List (String × IncludeInfo)) (exAcc : List String)
    (pre post : List String) (line : String)
    (hmal : parseInt (firstToken line) = none) :
    ((pre ++ line :: post).foldl (process_include_line lookupTable) acc =
      (pre ++ post).foldl (process_include_line lookupTable) acc) ∧
    (strStrip line ≠ "" →
      process_exclude_line exAcc line = sinsert exAcc (strLower (strStrip line))) := by
  constructor
  · rw [List.foldl_append, List.foldl_append, List.foldl_cons,
      process_include_malformed lookupTable _ line hmal]
  · intro hne
    exact process_exclude_malformed exAcc line hne hmal

/-- C9 witness: the malformed line `"x Knife"` dropped from an include
fold and kept whole (lower-cased) by the exclude parser. -/
theorem c9_witness :
    (["1 A", "x Knife", "2 B"].foldl (process_include_line []) [] =
      ["1 A", "2 B"].foldl (process_include_line []) []) ∧
    process_exclude_line [] "x Knife" = sinsert [] (strLower (strStrip "x Knife")) :=
  ⟨(c9_malformed_lines_recovered [] [] [] ["1 A"] ["2 B"] "x Knife" (by decide)).1,
   (c9_malformed_lines_recovered [] [] [] ["1 A"] ["2 B"] "x Knife" (by decide)).2 (by decide)⟩

/-! ### C3: canonicalization priority rules -/

/-- C3 counterexample: in the BasicWeakness bucket the revised-core rule
is not limited to the core/revised-core pairing.  Two printings of the
weakness `W` compete: one from `rcore` (cycle 1, position 2) and one
from pack `oth` (cycle 9, position 9).  Neither pack is `core`, and
`oth` has the strictly greater `(cycle_position, position)` pair, yet
the `rcore` printing (collector `w1`) wins. -/
def rcorePack : Pack := ⟨"rcore", "Revised Core Set", 1, 2⟩

def latePack : Pack := ⟨"oth", "Other", 9, 9⟩

def weaknessRcore : Card :=
  ⟨"w1", "W", "rcore", "treachery", "basicweakness", "neutral", none, none, 1, false,
    "", [], [], "", "", ""⟩

def weaknessLate : Card :=
  ⟨"w2", "W", "oth", "treachery", "basicweakness", "neutral", none, none, 1, false,
    "", [], [], "", "", ""⟩

def bwCat : Catalog :=
  ⟨[rcorePack, latePack], [weaknessRcore, weaknessLate],
    [("rcore", [weaknessRcore]), ("oth", [weaknessLate])]⟩

theorem c3_counterexample :
    rcorePack.code ≠ "core" ∧ latePack.code ≠ "core" ∧
    rcorePack.cycle_position < latePack.cycle_position ∧
    generate_basic_weaknesses_cards bwCat ["rcore", "oth"] [] =
      [⟨1, "W", "AHRCORE", "w1"⟩] ∧
    generate_basic_weaknesses_cards bwCat ["oth", "rcore"] [] =
      [⟨1, "W", "AHRCORE", "w1"⟩] := by decide

/-- C3 amended: the two priority steps, characterized.  In the
BasicWeakness bucket a revised-core printing beats any printing that is
not itself from revised core (not only core printings); in the
Investigator bucket the revised-core rule applies against core printings
only.  In both, absent the revised-core rules, the candidate with the
strictly greater `(cycle_position, position)` pair wins, and a tie
(identical pair) keeps the current, i.e. first-seen, printing. -/
theorem c3_priority_characterization (pc : String) (pd : Pack) (c : Card)
    (cur : Card × Pack) :
    (bw_priority_update pc pd c cur =
      if (pc = "rcore" ∧ cur.2.code ≠ "rcore") ∨
          (¬(cur.2.code = "rcore" ∧ pc ≠ "rcore") ∧
            (pd.cycle_position > cur.2.cycle_position ∨
              (pd.cycle_position = cur.2.cycle_position ∧ pd.position > cur.2.position)))
        then (c, pd) else cur) ∧
    (inv_priority_update pc pd c cur =
      if (pc = "rcore" ∧ cur.2.code = "core") ∨
          (¬(cur.2.code = "rcore" ∧ pc = "core") ∧
            (pd.cycle_position > cur.2.cycle_position ∨
              (pd.cycle_position = cur.2.cycle_position ∧ pd.position > cur.2.position)))
        then (c, pd) else cur) := by
  constructor
  · unfold bw_priority_update
    split_ifs <;> tauto
  · unfold inv_priority_update
    split_ifs <;> tauto

/-! ### C8: idempotence of the priority resolver -/

/-- The printings a resolver state has selected, re-presented as a
candidate stream (each chosen card under its chosen pack's code). -/
def bw_selected (st : List (String × (Card × Pack))) : List (String × Pack × Card) :=
  st.map (fun kv => (kv.2.2.code, kv.2.2, kv.2.1))

theorem bw_priority_update_cases (pc : String) (pd : Pack) (c : Card) (cur : Card × Pack) :
    bw_priority_update pc pd c cur = (c, pd) ∨ bw_priority_update pc pd c cur = cur := by
  unfold bw_priority_update
  split_ifs <;> simp

theorem bw_resolve_keys_nodup_general :
    ∀ (cands : List (String × Pack × Card)) (st : List (String × (Card × Pack))),
      (keysOf st).Nodup → (keysOf (cands.foldl bw_insert st)).Nodup := by
  intro cands
  induction cands with
  | nil => intro st h; exact h
  | cons cand rest ih =>
    intro st h
    simp only [List.foldl_cons]
    apply ih
    unfold bw_insert
    cases hl : alookup st cand.2.2.name with
    | none =>
      rw [keysOf_append, List.nodup_append]
      refine ⟨h, by simp [keysOf], ?_⟩
      intro a ha hb
      simp only [keysOf, List.map_cons, List.map_nil, List.mem_singleton] at hb
      exact not_mem_keys_of_alookup_none st cand.2.2.name hl (hb ▸ ha)
    | some cur =>
      rw [keysOf_aupdate]
      exact h

theorem bw_resolve_names_general :
    ∀ (cands : List (String × Pack × Card)) (st : List (String × (Card × Pack))),
      (∀ kv ∈ st, kv.2.1.name = kv.1) →
      ∀ kv ∈ cands.foldl bw_insert st, kv.2.1.name = kv.1 := by
  intro cands
  induction cands with
  | nil => intro st h; exact h
  | cons cand rest ih =>
    intro st h
    simp only [List.foldl_cons]
    apply ih
    intro kv hkv
    unfold bw_insert at hkv
    cases hl : alookup st cand.2.2.name with
    | none =>
      rw [hl] at hkv
      rcases List.mem_append.mp hkv with h1 | h1
      · exact h kv h1
      · simp only [List.mem_singleton] at h1
        rw [h1]
    | some cur =>
      rw [hl] at hkv
      rcases mem_aupdate _ _ _ _ hkv with h1 | ⟨h1, h2⟩
      · exact h kv h1
      · rcases bw_priority_update_cases cand.1 cand.2.1 cand.2.2 cur with hu | hu
        · rw [h2, hu, h1]
        · have hcur : cur.1.name = cand.2.2.name :=
            h (cand.2.2.name, cur) (mem_of_alookup_eq_some _ _ _ hl)
          rw [h2, hu, h1, hcur]

theorem bw_refold :
    ∀ (st acc : List (String × (Card × Pack))),
      (∀ kv ∈ st, kv.2.1.name = kv.1) →
      (∀ kv ∈ st, alookup acc kv.1 = none) →
      (keysOf st).Nodup →
      (bw_selected st).foldl bw_insert acc = acc ++ st := by
  intro st
  induction st with
  | nil =>
    intro acc _ _ _
    simp [bw_selected]
  | cons kv rest ih =>
    intro acc hnames hfresh hnodup
    simp only [bw_selected, List.map_cons, List.foldl_cons]
    have hname : kv.2.1.name = kv.1 := hnames kv (List.mem_cons_self _ _)
    have hstep : bw_insert acc (kv.2.2.code, kv.2.2, kv.2.1) = acc ++ [kv] := by
      unfold bw_insert
      simp only
      rw [hname, hfresh kv (List.mem_cons_self _ _)]
    rw [hstep]
    simp only [keysOf, List.map_cons, List.nodup_cons] at hnodup
    have hih := ih (acc ++ [kv])
      (fun q hq => hnames q (List.mem_cons_of_mem _ hq))
      (fun q hq => by
        rw [alookup_append, hfresh q (List.mem_cons_of_mem _ hq)]
        rw [alookup_cons]
        have : kv.1 ≠ q.1 := by
          intro he
          exact hnodup.1 (he ▸ List.mem_map.mpr ⟨q, hq, rfl⟩)
        simp [this, alookup_nil])
      hnodup.2
    show List.foldl bw_insert (acc ++ [kv]) (bw_selected rest) = acc ++ kv :: rest
    rw [hih, List.append_assoc]
    rfl

/-- C8: the BasicWeakness priority resolver (the max-reduction of
lines 1033-1057, shared in shape with the Investigators bucket) is
idempotent: feeding the printings it selected back through the same
reduction returns exactly the same selection — every logical name keeps
the same chosen printing. -/
theorem c8_resolver_idempotent (cands : List (String × Pack × Card)) :
    bw_resolve (bw_selected (bw_resolve cands)) = bw_resolve cands := by
  have h1 : (keysOf (bw_resolve cands)).Nodup :=
    bw_resolve_keys_nodup_general cands [] (by simp [keysOf])
  have h2 : ∀ kv ∈ bw_resolve cands, kv.2.1.name = kv.1 :=
    bw_resolve_names_general cands [] (by intro kv h; simp at h)
  show (bw_selected (bw_resolve cands)).foldl bw_insert [] = bw_resolve cands
  rw [bw_refold (bw_resolve cands) [] h2 (fun _ _ => rfl) h1]
  simp

/-! ### C2: exclusion removes from the three buckets -/

theorem mem_keys_foldl_bw_insert :
    ∀ (cands : List (String × Pack × Card)) (st : List (String × (Card × Pack))) (k : String),
      k ∈ keysOf (cands.foldl bw_insert st) →
        k ∈ keysOf st ∨ ∃ x ∈ cands, x.2.2.name = k := by
  intro cands
  induction cands with
  | nil => intro st k h; exact Or.inl h
  | cons cand rest ih =>
    intro st k h
    simp only [List.foldl_cons] at h
    rcases ih _ _ h with h1 | h1
    · unfold bw_insert at h1
      cases hl : alookup st cand.2.2.name with
      | none =>
        rw [hl, keysOf_append] at h1
        rcases List.mem_append.mp h1 with h2 | h2
        · exact Or.inl h2
        · simp only [keysOf, List.map_cons, List.map_nil, List.mem_singleton] at h2
          exact Or.inr ⟨cand, List.mem_cons_self _ _, h2.symm⟩
      | some cur =>
        rw [hl, keysOf_aupdate] at h1
        exact Or.inl h1
    · obtain ⟨x, hx, he⟩ := h1
      exact Or.inr ⟨x, List.mem_cons_of_mem _ hx, he⟩

theorem mem_keys_foldl_inv_insert :
    ∀ (cands : List (String × Pack × Card))
      (st : List (String × List (String × (Card × Pack)))) (k : String),
      k ∈ keysOf (cands.foldl inv_insert st) →
        k ∈ keysOf st ∨ ∃ x ∈ cands, x.2.2.name = k := by
  intro cands
  induction cands with
  | nil => intro st k h; exact Or.inl h
  | cons cand rest ih =>
    intro st k h
    simp only [List.foldl_cons] at h
    rcases ih _ _ h with h1 | h1
    · unfold inv_insert at h1
      cases hl : alookup st cand.2.2.name with
      | none =>
        rw [hl] at h1
        simp only at h1
        rw [keysOf_append] at h1
        rcases List.mem_append.mp h1 with h2 | h2
        · exact Or.inl h2
        · simp only [keysOf, List.map_cons, List.map_nil, List.mem_singleton] at h2
          exact Or.inr ⟨cand, List.mem_cons_self _ _, h2.symm⟩
      | some inner =>
        rw [hl] at h1
        simp only at h1
        cases hl2 : alookup inner (normalize_pack_code cand.1) with
        | none =>
          rw [hl2] at h1
          rw [keysOf_aupdate] at h1
          exact Or.inl h1
        | some cur =>
          rw [hl2] at h1
          rw [keysOf_aupdate] at h1
          exact Or.inl h1
    · obtain ⟨x, hx, he⟩ := h1
      exact Or.inr ⟨x, List.mem_cons_of_mem _ hx, he⟩

theorem bw_candidate_spec (cat : Catalog) (sel : List String) (ex : List String)
    (x : String × Pack × Card) (h : x ∈ bw_candidates cat sel ex) :
    bw_card_keep cat ex x.2.2 = true ∧ x.1 ∈ sel ∧ x.2.2 ∈ get_pack_cards cat x.1 ∧
      x.2.1 = packDataFor cat.packs x.1 := by
  unfold bw_candidates at h
  rw [List.mem_flatMap] at h
  obtain ⟨pc, hpc, hmem⟩ := h
  rw [List.mem_filterMap] at hmem
  obtain ⟨c, hc, hcond⟩ := hmem
  by_cases hk : bw_card_keep cat ex c = true
  · rw [if_pos hk] at hcond
    cases hcond
    exact ⟨hk, hpc, hc, rfl⟩
  · rw [if_neg hk] at hcond
    cases hcond

theorem inv_candidate_spec (cat : Catalog) (sel : List String) (ex : List String)
    (x : String × Pack × Card) (h : x ∈ inv_candidates cat sel ex) :
    inv_card_keep cat ex x.2.2 = true ∧ x.1 ∈ sel ∧ x.2.2 ∈ get_pack_cards cat x.1 ∧
      x.2.1 = packDataFor cat.packs x.1 := by
  unfold inv_candidates at h
  rw [List.mem_flatMap] at h
  obtain ⟨pc, hpc, hmem⟩ := h
  rw [List.mem_filterMap] at hmem
  obtain ⟨c, hc, hcond⟩ := hmem
  by_cases hk : inv_card_keep cat ex c = true
  · rw [if_pos hk] at hcond
    cases hcond
    exact ⟨hk, hpc, hc, rfl⟩
  · rw [if_neg hk] at hcond
    cases hcond

theorem mem_generate_bw_name (cat : Catalog) (sel : List String) (ex : List String)
    (e : Entry) (h : e ∈ generate_basic_weaknesses_cards cat sel ex) :
    e.name ∈ keysOf (bw_resolve (bw_candidates cat sel ex)) := by
  rw [generate_basic_weaknesses_cards, mem_sortOrdered] at h
  unfold bw_entries_unsorted at h
  rw [List.mem_map] at h
  obtain ⟨kv, hkv, rfl⟩ := h
  exact List.mem_map.mpr ⟨kv, hkv, rfl⟩

theorem mem_generate_inv_name (cat : Catalog) (sel : List String) (ex : List String)
    (e : Entry) (h : e ∈ generate_investigators_cards cat sel ex) :
    e.name ∈ keysOf (inv_resolve (inv_candidates cat sel ex)) := by
  rw [generate_investigators_cards, mem_sortOrdered] at h
  unfold inv_entries_unsorted at h
  rw [List.mem_flatMap] at h
  obtain ⟨kv, hkv, hmem⟩ := h
  rw [List.mem_map] at hmem
  obtain ⟨slot, _, rfl⟩ := hmem
  exact List.mem_map.mpr ⟨kv, hkv, rfl⟩

/-- C2 amended: an excluded (lower-cased) name produces no entry in the
Investigator, BasicWeakness, or PlayerCard bucket.  (The CustomCards
block is not filtered by the exclude list — see the counterexample.) -/
theorem c2_excluded_not_in_buckets (cat : Catalog) (sel : List String)
    (pq : List (String × Int)) (ex : List String) (e : Entry)
    (h : e ∈ generate_investigators_cards cat sel ex ∨
         e ∈ generate_basic_weaknesses_cards cat sel ex ∨
         e ∈ generate_player_cards cat sel pq ex) :
    strLower e.name ∉ ex := by
  rcases h with h | h | h
  · have hk := mem_generate_inv_name cat sel ex e h
    rcases mem_keys_foldl_inv_insert _ [] _ hk with h0 | ⟨x, hx, he⟩
    · simp [keysOf] at h0
    · have hspec := (inv_candidate_spec cat sel ex x hx).1
      simp only [inv_card_keep, decide_eq_true_eq] at hspec
      rw [← he]
      exact hspec.2.2.2.2
  · have hk := mem_generate_bw_name cat sel ex e h
    rcases mem_keys_foldl_bw_insert _ [] _ hk with h0 | ⟨x, hx, he⟩
    · simp [keysOf] at h0
    · have hspec := (bw_candidate_spec cat sel ex x hx).1
      simp only [bw_card_keep, decide_eq_true_eq] at hspec
      rw [← he]
      exact hspec.2.2.2.2
  · obtain ⟨kv, hkv, rfl⟩ := (mem_generate_player_cards cat sel pq ex e).mp h
    have hk : kv.1 ∈ keysOf (accumAll (player_contribs cat sel pq ex)) :=
      List.mem_map.mpr ⟨kv, hkv, rfl⟩
    rcases mem_keys_foldl_accum _ [] _ hk with h0 | h0
    · simp [keysOf] at h0
    · obtain ⟨pc, _, c, _, h1, _, _, h4, _⟩ :=
        mem_keys_player_contribs cat sel pq ex kv.1 h0
      simp only [player_card_keep, decide_eq_true_eq] at h4
      show strLower kv.1.name ∉ ex
      rw [h1]
      exact h4.2.2.2.2.2.2

/-- C2 witness: with the exclude set `["bulb"]` a surviving entry's
lower-cased name is indeed not in the set. -/
theorem c2_witness :
    strLower (Entry.name ⟨2, "Knife", "AHP1", "k1"⟩) ∉ ["bulb"] :=
  c2_excluded_not_in_buckets twoPackCat ["p1", "p2"] [] ["bulb"]
    ⟨2, "Knife", "AHP1", "k1"⟩ (Or.inr (Or.inr (by decide)))

def knifeCat : Catalog := ⟨[packP1], [knifeP1], [("p1", [knifeP1])]⟩

/-- C2 counterexample: excluding `Knife` empties the buckets, but
`convert_to_draftmancer_format` never receives the exclude set, so the
emitted CustomCards block still carries a custom-card object named
`Knife` — the claim's "no custom-card object in the emitted CustomCards
block" fails. -/
theorem c2_counterexample :
    parse_excluded_cards "Knife" = ["knife"] ∧
    generate_player_cards knifeCat ["p1"] [] (parse_excluded_cards "Knife") = [] ∧
    (convert_to_draftmancer_cards knifeCat ["Pack One"]).map (fun d => d.name) =
      ["Knife"] := by decide

/-! ### C4: back-face suppression -/

/-- C4 amended: a card of the catalog whose code ends in `b` is a
standalone member of the compiled pool exactly when it is in scope
(selected or required), its xp is not positive, and no card *from a
selected pack* has `linked_to_code` pointing at it.  Links carried by
required-but-unselected cards are not consulted (see the
counterexample). -/
theorem c4_back_face_inclusion (cat : Catalog) (selCodes : List String) (c : Card)
    (hc : c ∈ cat.cards) (hb : strEndsWith c.code "b" = true) :
    c ∈ filtered_cards cat selCodes ↔
      (card_in_scope cat selCodes c = true ∧ ¬xpPositive c ∧
        front_card_exists cat selCodes c.code = false) := by
  unfold filtered_cards
  rw [List.mem_filter]
  unfold filtered_card_test
  simp only [decide_eq_true_eq]
  rw [if_pos hb]
  constructor
  · rintro ⟨_, h1, h2, h3⟩
    exact ⟨h1, h2, by simpa using h3⟩
  · rintro ⟨h1, h2, h3⟩
    exact ⟨hc, h1, h2, by simp [h3]⟩

def invReqCard : Card :=
  ⟨"i1", "Inv", "p1", "investigator", "", "guardian", none, none, 1, false, "", [], ["f1"],
    "", "", ""⟩

def frontCard : Card :=
  ⟨"f1", "Front", "p2", "asset", "", "neutral", none, none, 1, false, "", [], [],
    "x1b", "", ""⟩

def backFaceCard : Card :=
  ⟨"x1b", "Back Face", "p1", "asset", "", "neutral", none, none, 1, false, "", [], [],
    "", "", ""⟩

def linkedCat : Catalog :=
  ⟨[packP1, packP2], [invReqCard, frontCard, backFaceCard],
    [("p1", [invReqCard, backFaceCard]), ("p2", [frontCard])]⟩

/-- C4 counterexample: `f1` is a *required* card (pulled in by the
selected investigator's deck requirements) living in an unselected pack,
and its `linked_to_code` points at `x1b`; the claim says `x1b` must then
be excluded from the pool, but the code only scans selected-pack cards
for incoming links, so `x1b` is included as a standalone card. -/
theorem c4_counterexample :
    required_card_codes linkedCat ["p1"] = ["f1"] ∧
    frontCard.linked_to_code = "x1b" ∧
    frontCard.pack_code ∉ ["p1"] ∧
    (filtered_cards linkedCat ["p1"]).map (fun c => c.code) = ["i1", "f1", "x1b"] := by
  decide

/-- C4 witness: the amended equivalence applied at the concrete catalog. -/
theorem c4_witness :
    backFaceCard ∈ filtered_cards linkedCat ["p1"] ↔
      (card_in_scope linkedCat ["p1"] backFaceCard = true ∧ ¬xpPositive backFaceCard ∧
        front_card_exists linkedCat ["p1"] backFaceCard.code = false) :=
  c4_back_face_inclusion linkedCat ["p1"] backFaceCard (by decide) (by decide)

/-! ### C5: bucket-entry uniqueness -/

/-- The `(name, set-label, collector-number)` combination of an entry. -/
def entry_triple (e : Entry) : String × String × String :=
  (e.name, e.set_label, e.collector_number)

/-- The per-pack payloads agree with the card records: every card listed
under a pack code carries that pack code (the per-pack endpoint of the
card API guarantees this for real catalogs). -/
def pack_cards_wf (cat : Catalog) : Prop :=
  ∀ p ∈ cat.pack_cards, ∀ c ∈ p.2, c.pack_code = p.1

/-- Upper-casing is injective on the pack codes of a selection (real
pack codes are lower-case slugs, so this holds for them). -/
def sel_upper_inj (sel : List String) : Prop :=
  ∀ p1 ∈ sel, ∀ p2 ∈ sel, strUpper p1 = strUpper p2 → p1 = p2

def corePackDef : Pack := ⟨"core", "Core Set", 1, 1⟩

def rolandCard : Card :=
  ⟨"01001", "Roland Banks", "core", "investigator", "", "guardian", none, none, 1, false,
    "", [], [], "", "", ""⟩

def rolandCat : Catalog := ⟨[corePackDef], [rolandCard], [("core", [rolandCard])]⟩

/-- C5 counterexample: merging the explicit include `"2 Roland Banks"`
into the Investigator bucket appends a second line for the same
`(name, set-label, collector-number)` combination, because the
duplicate check (`if entry not in investigators_cards`, line 347)
compares whole lines including the quantity prefix, and the include's
quantity 2 differs from the generator's fixed quantity 1. -/
theorem c5_counterexample :
    ((generate_investigators_cards rolandCat ["core"] []).map render_entry =
      ["1 Roland Banks (AHCORE) 01001"]) ∧
    ((add_cards_to_include_to_lists (parse_cards_to_include [rolandCard] "2 Roland Banks")
        ((generate_investigators_cards rolandCat ["core"] []).map render_entry) [] []
        [rolandCard] none).1 =
      ["1 Roland Banks (AHCORE) 01001", "2 Roland Banks (AHCORE) 01001"]) ∧
    "1 Roland Banks (AHCORE) 01001" ≠ "2 Roland Banks (AHCORE) 01001" ∧
    line_card_name "1 Roland Banks (AHCORE) 01001" =
      line_card_name "2 Roland Banks (AHCORE) 01001" ∧
    line_set_label "1 Roland Banks (AHCORE) 01001" =
      line_set_label "2 Roland Banks (AHCORE) 01001" ∧
    line_collector "1 Roland Banks (AHCORE) 01001" =
      line_collector "2 Roland Banks (AHCORE) 01001" := by decide

theorem strAppend_left_cancel (s t u : String) (h : s ++ t = s ++ u) : t = u := by
  have hd := congrArg String.data h
  simp only [String.data_append] at hd
  exact String.ext (List.append_cancel_left hd)

theorem get_pack_cards_wf (cat : Catalog) (pc : String) (c : Card)
    (hW : pack_cards_wf cat) (h : c ∈ get_pack_cards cat pc) : c.pack_code = pc := by
  unfold get_pack_cards at h
  cases hl : alookup cat.pack_cards pc with
  | none => rw [hl] at h; simp at h
  | some v =>
    rw [hl] at h
    simp only [Option.getD_some] at h
    exact hW (pc, v) (mem_of_alookup_eq_some _ _ _ hl) c h

theorem map_flatMap_eq {α β γ : Type} (f : β → γ) (g : α → List β) (l : List α) :
    (l.flatMap g).map f = l.flatMap (fun x => (g x).map f) := by
  induction l with
  | nil => rfl
  | cons a t ih => simp [List.flatMap_cons, ih]

/-- Distinct keys of the player accumulation map to distinct entry
triples, given upper-case injectivity on the selection. -/
theorem player_triples_nodup (cat : Catalog) (sel : List String)
    (pq : List (String × Int)) (ex : List String) (hinj : sel_upper_inj sel) :
    ((generate_player_cards cat sel pq ex).map entry_triple).Nodup := by
  rw [generate_player_cards]
  rw [((sortOrdered_perm _ _).map entry_triple).nodup_iff]
  unfold player_entries_unsorted
  rw [List.map_map]
  have hshape : (entry_triple ∘ fun kv : PCKey × Int =>
      (⟨kv.2, kv.1.name, "AH" ++ strUpper kv.1.pack_code, kv.1.collector_number⟩ : Entry)) =
      (fun kv : PCKey × Int =>
        (kv.1.name, "AH" ++ strUpper kv.1.pack_code, kv.1.collector_number)) := by
    funext kv
    rfl
  rw [hshape]
  have hkeys : (keysOf (accumAll (player_contribs cat sel pq ex))).Nodup :=
    keys_nodup_foldl_accum _ [] (by simp [keysOf])
  have hsel : ∀ kv ∈ accumAll (player_contribs cat sel pq ex), kv.1.pack_code ∈ sel := by
    intro kv hkv
    have hk : kv.1 ∈ keysOf (accumAll (player_contribs cat sel pq ex)) :=
      List.mem_map.mpr ⟨kv, hkv, rfl⟩
    rcases mem_keys_foldl_accum _ [] _ hk with h0 | h0
    · simp [keysOf] at h0
    · obtain ⟨pc, hpc, c, _, _, h2, _, _, _⟩ :=
        mem_keys_player_contribs cat sel pq ex kv.1 h0
      rw [h2]
      exact hpc
  apply List.Nodup.map_on
  · intro x hx y hy he
    have h1 : x.1.name = y.1.name := congrArg (fun t => t.1) he
    have h2 : "AH" ++ strUpper x.1.pack_code = "AH" ++ strUpper y.1.pack_code :=
      congrArg (fun t => t.2.1) he
    have h3 : x.1.collector_number = y.1.collector_number := congrArg (fun t => t.2.2) he
    have h4 : x.1.pack_code = y.1.pack_code :=
      hinj _ (hsel x hx) _ (hsel y hy) (strAppend_left_cancel _ _ _ h2)
    have hk : x.1 = y.1 := by
      cases hxk : x.1
      cases hyk : y.1
      rw [hxk, hyk] at h1 h3 h4
      simp_all
    exact List.inj_on_of_nodup_map hkeys hx hy hk
  · exact List.Nodup.of_map _ hkeys

/-- One entry per name in the BasicWeaknesses bucket gives unique
triples outright. -/
theorem bw_triples_nodup (cat : Catalog) (sel : List String) (ex : List String) :
    ((generate_basic_weaknesses_cards cat sel ex).map entry_triple).Nodup := by
  rw [generate_basic_weaknesses_cards]
  rw [((sortOrdered_perm _ _).map entry_triple).nodup_iff]
  unfold bw_entries_unsorted
  rw [List.map_map]
  have hkeys : (keysOf (bw_resolve (bw_candidates cat sel ex))).Nodup :=
    bw_resolve_keys_nodup_general _ [] (by simp [keysOf])
  apply List.Nodup.map_on
  · intro x hx y hy he
    have h1 : x.1 = y.1 := congrArg (fun t => t.1) he
    exact List.inj_on_of_nodup_map hkeys hx hy h1
  · exact List.Nodup.of_map _ hkeys

/-! #### Investigator-state invariant -/

/-- What the nested Investigators dict stores in slot `np`: a card from
a selected pack whose (normalized) own pack code is the slot key. -/
def inv_slot_ok (sel : List String) (np : String) (v : Card × Pack) : Prop :=
  v.1.pack_code ∈ sel ∧ normalize_pack_code v.1.pack_code = np

/-- The structural invariant of `cards_by_name_and_pack`. -/
def inv_state_ok (sel : List String)
    (st : List (String × List (String × (Card × Pack)))) : Prop :=
  (keysOf st).Nodup ∧ ∀ p ∈ st, (keysOf p.2).Nodup ∧ ∀ q ∈ p.2, inv_slot_ok sel q.1 q.2

theorem inv_priority_update_cases (pc : String) (pd : Pack) (c : Card) (cur : Card × Pack) :
    inv_priority_update pc pd c cur = (c, pd) ∨ inv_priority_update pc pd c cur = cur := by
  unfold inv_priority_update
  split_ifs <;> simp

theorem inv_insert_outer_none (st : List (String × List (String × (Card × Pack))))
    (cand : String × Pack × Card) (hl : alookup st cand.2.2.name = none) :
    inv_insert st cand =
      st ++ [(cand.2.2.name, [(normalize_pack_code cand.1, (cand.2.2, cand.2.1))])] := by
  unfold inv_insert
  rw [hl]

theorem inv_insert_inner_none (st : List (String × List (String × (Card × Pack))))
    (cand : String × Pack × Card) (inner : List (String × (Card × Pack)))
    (hl : alookup st cand.2.2.name = some inner)
    (hl2 : alookup inner (normalize_pack_code cand.1) = none) :
    inv_insert st cand = aupdate st cand.2.2.name
      (inner ++ [(normalize_pack_code cand.1, (cand.2.2, cand.2.1))]) := by
  unfold inv_insert
  rw [hl]
  show (match alookup inner (normalize_pack_code cand.1) with
    | none => aupdate st cand.2.2.name
        (inner ++ [(normalize_pack_code cand.1, (cand.2.2, cand.2.1))])
    | some cur => aupdate st cand.2.2.name
        (aupdate inner (normalize_pack_code cand.1)
          (inv_priority_update cand.1 cand.2.1 cand.2.2 cur))) = _
  rw [hl2]

theorem inv_insert_inner_some (st : List (String × List (String × (Card × Pack))))
    (cand : String × Pack × Card) (inner : List (String × (Card × Pack)))
    (cur : Card × Pack) (hl : alookup st cand.2.2.name = some inner)
    (hl2 : alookup inner (normalize_pack_code cand.1) = some cur) :
    inv_insert st cand = aupdate st cand.2.2.name
      (aupdate inner (normalize_pack_code cand.1)
        (inv_priority_update cand.1 cand.2.1 cand.2.2 cur)) := by
  unfold inv_insert
  rw [hl]
  show (match alookup inner (normalize_pack_code cand.1) with
    | none => aupdate st cand.2.2.name
        (inner ++ [(normalize_pack_code cand.1, (cand.2.2, cand.2.1))])
    | some cur => aupdate st cand.2.2.name
        (aupdate inner (normalize_pack_code cand.1)
          (inv_priority_update cand.1 cand.2.1 cand.2.2 cur))) = _
  rw [hl2]

theorem inv_insert_ok (sel : List String) (st : List (String × List (String × (Card × Pack))))
    (cand : String × Pack × Card) (hst : inv_state_ok sel st)
    (hcand : cand.1 ∈ sel ∧ cand.2.2.pack_code = cand.1) :
    inv_state_ok sel (inv_insert st cand) := by
  obtain ⟨hnodup, hslots⟩ := hst
  have hslot : inv_slot_ok sel (normalize_pack_code cand.1) (cand.2.2, cand.2.1) := by
    refine ⟨?_, ?_⟩
    · rw [hcand.2]; exact hcand.1
    · rw [hcand.2]
  cases hl : alookup st cand.2.2.name with
  | none =>
    rw [inv_insert_outer_none st cand hl]
    refine ⟨?_, ?_⟩
    · rw [keysOf_append, List.nodup_append]
      refine ⟨hnodup, by simp [keysOf], ?_⟩
      intro a ha hb
      simp only [keysOf, List.map_cons, List.map_nil, List.mem_singleton] at hb
      exact not_mem_keys_of_alookup_none st cand.2.2.name hl (hb ▸ ha)
    · intro p hp
      rcases List.mem_append.mp hp with h1 | h1
      · exact hslots p h1
      · simp only [List.mem_singleton] at h1
        subst h1
        refine ⟨by simp [keysOf], ?_⟩
        intro q hq
        simp only [List.mem_singleton] at hq
        subst hq
        exact hslot
  | some inner =>
    have hinner := hslots (cand.2.2.name, inner) (mem_of_alookup_eq_some _ _ _ hl)
    cases hl2 : alookup inner (normalize_pack_code cand.1) with
    | none =>
      rw [inv_insert_inner_none st cand inner hl hl2]
      refine ⟨by rw [keysOf_aupdate]; exact hnodup, ?_⟩
      intro p hp
      rcases mem_aupdate _ _ _ _ hp with h1 | ⟨_, h2⟩
      · exact hslots p h1
      · rw [h2]
        refine ⟨?_, ?_⟩
        · rw [keysOf_append, List.nodup_append]
          refine ⟨hinner.1, by simp [keysOf], ?_⟩
          intro a ha hb
          simp only [keysOf, List.map_cons, List.map_nil, List.mem_singleton] at hb
          exact not_mem_keys_of_alookup_none inner (normalize_pack_code cand.1) hl2 (hb ▸ ha)
        · intro q hq
          rcases List.mem_append.mp hq with hq1 | hq1
          · exact hinner.2 q hq1
          · simp only [List.mem_singleton] at hq1
            subst hq1
            exact hslot
    | some cur =>
      rw [inv_insert_inner_some st cand inner cur hl hl2]
      refine ⟨by rw [keysOf_aupdate]; exact hnodup, ?_⟩
      intro p hp
      rcases mem_aupdate _ _ _ _ hp with h1 | ⟨_, h2⟩
      · exact hslots p h1
      · rw [h2]
        refine ⟨by rw [keysOf_aupdate]; exact hinner.1, ?_⟩
        intro q hq
        rcases mem_aupdate _ _ _ _ hq with hq1 | ⟨hq1, hq2⟩
        · exact hinner.2 q hq1
        · rcases inv_priority_update_cases cand.1 cand.2.1 cand.2.2 cur with hu | hu
          · rw [hq2, hu, hq1]
            exact hslot
          · rw [hq2, hu, hq1]
            have := hinner.2 (normalize_pack_code cand.1, cur)
              (mem_of_alookup_eq_some _ _ _ hl2)
            exact this

theorem inv_resolve_ok (sel : List String) :
    ∀ (cands : List (String × Pack × Card))
      (st : List (String × List (String × (Card × Pack)))),
      inv_state_ok sel st →
      (∀ x ∈ cands, x.1 ∈ sel ∧ x.2.2.pack_code = x.1) →
      inv_state_ok sel (cands.foldl inv_insert st) := by
  intro cands
  induction cands with
  | nil => intro st hst _; exact hst
  | cons cand rest ih =>
    intro st hst hc
    simp only [List.foldl_cons]
    exact ih _ (inv_insert_ok sel st cand hst (hc cand (List.mem_cons_self _ _)))
      (fun x hx => hc x (List.mem_cons_of_mem _ hx))

theorem inv_candidates_wf (cat : Catalog) (sel : List String) (ex : List String)
    (hW : pack_cards_wf cat) :
    ∀ x ∈ inv_candidates cat sel ex, x.1 ∈ sel ∧ x.2.2.pack_code = x.1 := by
  intro x hx
  have h := inv_candidate_spec cat sel ex x hx
  exact ⟨h.2.1, get_pack_cards_wf cat x.1 x.2.2 hW h.2.2.1⟩

/-- All triples produced by one outer entry. -/
def inv_block_triples (kv : String × List (String × (Card × Pack))) :
    List (String × String × String) :=
  kv.2.map (fun slot => (kv.1, "AH" ++ strUpper slot.2.1.pack_code, slot.2.1.code))

theorem inv_state_triples_nodup (sel : List String) (hinj : sel_upper_inj sel) :
    ∀ st, inv_state_ok sel st → (st.flatMap inv_block_triples).Nodup := by
  intro st
  induction st with
  | nil => intro _; simp
  | cons kv rest ih =>
    intro hok
    obtain ⟨hnodup, hslots⟩ := hok
    simp only [keysOf, List.map_cons, List.nodup_cons] at hnodup
    rw [List.flatMap_cons, List.nodup_append]
    have hkv := hslots kv (List.mem_cons_self _ _)
    refine ⟨?_, ?_, ?_⟩
    · unfold inv_block_triples
      apply List.Nodup.map_on
      · intro q1 hq1 q2 hq2 he
        have hl1 := hkv.2 q1 hq1
        have hl2 := hkv.2 q2 hq2
        have hlab : "AH" ++ strUpper q1.2.1.pack_code = "AH" ++ strUpper q2.2.1.pack_code :=
          congrArg (fun t => t.2.1) he
        have hpc : q1.2.1.pack_code = q2.2.1.pack_code :=
          hinj _ hl1.1 _ hl2.1 (strAppend_left_cancel _ _ _ hlab)
        have hnp : q1.1 = q2.1 := by
          rw [← hl1.2, ← hl2.2, hpc]
        exact List.inj_on_of_nodup_map hkv.1 hq1 hq2 hnp
      · exact List.Nodup.of_map _ hkv.1
    · exact ih ⟨hnodup.2, fun p hp => hslots p (List.mem_cons_of_mem _ hp)⟩
    · intro t ht1 ht2
      have hfst1 : t.1 = kv.1 := by
        unfold inv_block_triples at ht1
        obtain ⟨slot, _, rfl⟩ := List.mem_map.mp ht1
        rfl
      rw [List.mem_flatMap] at ht2
      obtain ⟨kv2, hkv2, hmem2⟩ := ht2
      have hfst2 : t.1 = kv2.1 := by
        unfold inv_block_triples at hmem2
        obtain ⟨slot, _, rfl⟩ := List.mem_map.mp hmem2
        rfl
      exact hnodup.1 (hfst1 ▸ hfst2 ▸ List.mem_map.mpr ⟨kv2, hkv2, rfl⟩)

theorem inv_triples_nodup (cat : Catalog) (sel : List String) (ex : List String)
    (hW : pack_cards_wf cat) (hinj : sel_upper_inj sel) :
    ((generate_investigators_cards cat sel ex).map entry_triple).Nodup := by
  rw [generate_investigators_cards]
  rw [((sortOrdered_perm _ _).map entry_triple).nodup_iff]
  unfold inv_entries_unsorted
  rw [map_flatMap_eq]
  have hshape : (fun kv : String × List (String × (Card × Pack)) =>
      (kv.2.map (fun slot =>
        (⟨1, kv.1, "AH" ++ strUpper slot.2.1.pack_code, slot.2.1.code⟩ : Entry))).map
        entry_triple) = inv_block_triples := by
    funext kv
    rw [List.map_map]
    rfl
  rw [hshape]
  exact inv_state_triples_nodup sel hinj _
    (inv_resolve_ok sel _ [] ⟨by simp [keysOf], by simp⟩ (inv_candidates_wf cat sel ex hW))

/-- C5 amended: over the pack-generated buckets, every
`(name, set-label, collector-number)` combination occurs in at most one
entry of the Investigator and BasicWeakness buckets, and every
`(name, pack-label, collector-number)` triple in at most one PlayerCard
entry — under the catalog well-formedness assumptions that per-pack
payloads carry their own pack code and that upper-casing is injective on
the selected pack codes.  (After explicitly included cards are merged
the property fails — see the counterexample.) -/
theorem c5_bucket_uniqueness (cat : Catalog) (sel : List String)
    (pq : List (String × Int)) (ex : List String)
    (hW : pack_cards_wf cat) (hinj : sel_upper_inj sel) :
    ((generate_investigators_cards cat sel ex).map entry_triple).Nodup ∧
    ((generate_basic_weaknesses_cards cat sel ex).map entry_triple).Nodup ∧
    ((generate_player_cards cat sel pq ex).map entry_triple).Nodup :=
  ⟨inv_triples_nodup cat sel ex hW hinj,
   bw_triples_nodup cat sel ex,
   player_triples_nodup cat sel pq ex hinj⟩

/-- C5 witness: the uniqueness theorem applied to a concrete catalog. -/
theorem c5_witness :
    ((generate_investigators_cards twoPackCat ["p1", "p2"] []).map entry_triple).Nodup ∧
    ((generate_basic_weaknesses_cards twoPackCat ["p1", "p2"] []).map entry_triple).Nodup ∧
    ((generate_player_cards twoPackCat ["p1", "p2"] [] []).map entry_triple).Nodup :=
  c5_bucket_uniqueness twoPackCat ["p1", "p2"] [] []
    (by unfold pack_cards_wf; decide) (by unfold sel_upper_inj; decide)

end ArkhamVD
